import Mathlib

/-!
# BioSim island-ecosystem engine: a shallow embedding

This file embeds the core of the BioSim ecosystem simulator
(`src/biosim/animal_class.py`, `src/biosim/geography_class.py`,
`src/biosim/simulation.py`) into Lean and proves properties of the
yearly stepping engine.

Modelling conventions:

* Python floats become `ℚ` (all arithmetic in the engine is exact
  rational arithmetic on the inputs involved; no claim below concerns
  float rounding).
* The process-wide random generator becomes an explicit `RS` record of
  tapes, threaded through every operation in the exact order the source
  consumes randomness.  `random.random()` pops the `uniform` tape,
  `random.gauss(mu, sigma)` pops a standard-normal value `g` from the
  `gauss` tape and yields `mu + sigma * g`, `random.choice` over the
  four neighbour coordinates pops the `choices` tape, and
  `random.shuffle` pops an index permutation from the `shuffles` tape.
* `Animal.calculate_fitness` assigns `0` when `weight ≤ 0` and otherwise
  the product of two sigmoids of the real exponential.  The sigmoid
  product is a transcendental function of the animal's fields, so the
  engine embedding is parametrised by a fitness map `φ : Animal → ℚ`
  standing for that product; the actual real-valued formula is embedded
  separately (`ageFactor`, `weightFactor`, `fitnessFormula` below) and
  its mathematical properties are proved there.  No structural claim
  about the engine depends on the numeric values `φ` produces.
-/

namespace BioSim

/-- Explicit random-tape state replacing Python's process-wide
`random` generator.  Each tape is consumed front-first. -/
structure RS where
  uniform : List ℚ
  gauss : List ℚ
  choices : List (Fin 4)
  shuffles : List (List ℕ)
deriving DecidableEq

/-- `random.random()`: pop one uniform draw (defaults to `0`, a value
the Python generator can in fact produce, when the tape is exhausted). -/
def RS.next (s : RS) : ℚ × RS :=
  match s.uniform with
  | [] => (0, s)
  | d :: ds => (d, { s with uniform := ds })

/-- Pop one standard-normal draw from the gauss tape. -/
def RS.nextGauss (s : RS) : ℚ × RS :=
  match s.gauss with
  | [] => (0, s)
  | d :: ds => (d, { s with gauss := ds })

/-- `random.gauss(mu, sigma)` = `mu + sigma * g` for a standard-normal `g`. -/
def rgauss (mu sigma : ℚ) (s : RS) : ℚ × RS :=
  (mu + sigma * (s.nextGauss).1, (s.nextGauss).2)

/-- `random.choice` over the four orthogonal neighbours: pop a `Fin 4`. -/
def RS.nextChoice (s : RS) : Fin 4 × RS :=
  match s.choices with
  | [] => (0, s)
  | k :: ks => (k, { s with choices := ks })

/-- Pop one shuffle permutation (a list of indices). -/
def RS.nextShuffle (s : RS) : List ℕ × RS :=
  match s.shuffles with
  | [] => ([], s)
  | p :: ps => (p, { s with shuffles := ps })

/-- `random.shuffle`: reorder `l` by the index list `σ` when `σ` is a
valid permutation of the positions of `l`; otherwise leave `l` alone.
Any stable outcome of Python's Fisher-Yates shuffle is one such
reordering. -/
def applyShuffle (σ : List ℕ) (l : List α) : List α :=
  if σ.length = l.length ∧ σ.Nodup ∧ ∀ i ∈ σ, i < l.length then
    σ.filterMap l.get?
  else l

/-- One animal.  In the source every parameter is an instance attribute
set by the species constructor (`Herbivore.__init__`,
`Carnivore.__init__`), so all parameter fields live on the record.
`DeltaPhiMax` exists only on carnivores in the source; herbivore
construction stores `0` there and no herbivore operation reads it. -/
structure Animal where
  age : ℚ
  weight : ℚ
  fitness : ℚ
  a_half : ℚ
  zeta : ℚ
  phi_age : ℚ
  phi_weight : ℚ
  w_half : ℚ
  mu : ℚ
  omega : ℚ
  eta : ℚ
  sigma_birth : ℚ
  w_birth : ℚ
  beta : ℚ
  gamma : ℚ
  xi : ℚ
  F : ℚ
  DeltaPhiMax : ℚ
deriving DecidableEq

/-- Stand-in for the sigmoid product of `Animal.calculate_fitness`
(the branch taken when `weight > 0`). -/
abbrev FitnessMap := Animal → ℚ

/-- `Animal.calculate_fitness`: fitness is `0` when `weight ≤ 0`,
otherwise the sigmoid product, represented by `φ`. -/
def Animal.calculate_fitness (φ : FitnessMap) (a : Animal) : Animal :=
  if a.weight ≤ 0 then { a with fitness := 0 } else { a with fitness := φ a }

/-- `Animal.update_age`: age increases by one, weight drops by
`weight * eta`, fitness is recomputed. -/
def Animal.update_age (φ : FitnessMap) (a : Animal) : Animal :=
  Animal.calculate_fitness φ
    { a with age := a.age + 1, weight := a.weight - a.weight * a.eta }

/-- `Animal.migration_prob` = `mu * fitness`. -/
def Animal.migration_prob (a : Animal) : ℚ := a.mu * a.fitness

/-- `Animal.weight_reduction`: the mother loses the baby's birth weight
and her fitness is recomputed. -/
def Animal.weight_reduction (φ : FitnessMap) (a : Animal) (baby_weight : ℚ) : Animal :=
  Animal.calculate_fitness φ { a with weight := a.weight - baby_weight }

/-- `Animal.dies`: deterministically true at `weight == 0`; otherwise a
uniform draw is consumed (Python's `or` short-circuits, so no draw is
consumed on the zero-weight path). -/
def Animal.dies (a : Animal) (s : RS) : Bool × RS :=
  if a.weight = 0 then (true, s)
  else (decide (a.omega * (1 - a.fitness) > (s.next).1), (s.next).2)

/-- A parameter dictionary for `Animal.set_animal_params`: each key that
is present overwrites the corresponding instance attribute. -/
structure ParamDict where
  age : Option ℚ := none
  weight : Option ℚ := none
  fitness : Option ℚ := none
  a_half : Option ℚ := none
  zeta : Option ℚ := none
  phi_age : Option ℚ := none
  phi_weight : Option ℚ := none
  w_half : Option ℚ := none
  mu : Option ℚ := none
  omega : Option ℚ := none
  eta : Option ℚ := none
  sigma_birth : Option ℚ := none
  w_birth : Option ℚ := none
  beta : Option ℚ := none
  gamma : Option ℚ := none
  xi : Option ℚ := none
  F : Option ℚ := none
  DeltaPhiMax : Option ℚ := none

/-- `Animal.set_animal_params`: `setattr` for every key present in the
dictionary. -/
def Animal.set_animal_params (a : Animal) (p : ParamDict) : Animal :=
  { age := p.age.getD a.age
    weight := p.weight.getD a.weight
    fitness := p.fitness.getD a.fitness
    a_half := p.a_half.getD a.a_half
    zeta := p.zeta.getD a.zeta
    phi_age := p.phi_age.getD a.phi_age
    phi_weight := p.phi_weight.getD a.phi_weight
    w_half := p.w_half.getD a.w_half
    mu := p.mu.getD a.mu
    omega := p.omega.getD a.omega
    eta := p.eta.getD a.eta
    sigma_birth := p.sigma_birth.getD a.sigma_birth
    w_birth := p.w_birth.getD a.w_birth
    beta := p.beta.getD a.beta
    gamma := p.gamma.getD a.gamma
    xi := p.xi.getD a.xi
    F := p.F.getD a.F
    DeltaPhiMax := p.DeltaPhiMax.getD a.DeltaPhiMax }

/-- The attribute assignments of `Herbivore.__init__` before the
optional birth-weight draw and the fitness computation. -/
def Herbivore.paramBase (age weight : ℚ) : Animal :=
  { age := age, weight := weight, fitness := 0
    a_half := 40.0, zeta := 3.5, phi_age := 0.6, phi_weight := 0.1
    w_half := 10.0, mu := 0.25, omega := 0.4, eta := 0.05
    sigma_birth := 1.5, w_birth := 8.0, beta := 0.9, gamma := 0.2
    xi := 1.2, F := 10.0, DeltaPhiMax := 0 }

/-- `Herbivore.__init__(age, weight)`: when no weight is supplied it is
drawn from `gauss(w_birth, sigma_birth)`; fitness is computed at the
end of construction. -/
def Herbivore.init (φ : FitnessMap) (age : ℚ) (weight : Option ℚ) (s : RS) :
    Animal × RS :=
  match weight with
  | some w => (Animal.calculate_fitness φ (Herbivore.paramBase age w), s)
  | none =>
    let a0 := Herbivore.paramBase age 0
    let ws := rgauss a0.w_birth a0.sigma_birth s
    (Animal.calculate_fitness φ { a0 with weight := ws.1 }, ws.2)

/-- The attribute assignments of `Carnivore.__init__` before the
optional birth-weight draw and the fitness computation. -/
def Carnivore.paramBase (age weight : ℚ) : Animal :=
  { age := age, weight := weight, fitness := 0
    a_half := 40.0, zeta := 3.5, phi_age := 0.3, phi_weight := 0.4
    w_half := 4.0, mu := 0.4, omega := 0.8, eta := 0.125
    sigma_birth := 1.0, w_birth := 6.0, beta := 0.75, gamma := 0.8
    xi := 1.1, F := 50.0, DeltaPhiMax := 10.0 }

/-- `Carnivore.__init__(age, weight)`. -/
def Carnivore.init (φ : FitnessMap) (age : ℚ) (weight : Option ℚ) (s : RS) :
    Animal × RS :=
  match weight with
  | some w => (Animal.calculate_fitness φ (Carnivore.paramBase age w), s)
  | none =>
    let a0 := Carnivore.paramBase age 0
    let ws := rgauss a0.w_birth a0.sigma_birth s
    (Animal.calculate_fitness φ { a0 with weight := ws.1 }, ws.2)

/-- `Herbivore.feed(available_fodder)`: eat `F` (or everything that is
left), gain `beta` times the amount eaten, recompute fitness, and
report the amount eaten back to the cell. -/
def Herbivore.feed (φ : FitnessMap) (a : Animal) (available_fodder : ℚ) :
    Animal × ℚ :=
  if a.F ≤ available_fodder then
    (Animal.calculate_fitness φ { a with weight := a.weight + a.beta * a.F }, a.F)
  else
    (Animal.calculate_fitness φ
      { a with weight := a.weight + a.beta * available_fodder }, available_fodder)

/-- Result of a reproduction attempt: the optional newborn, the
(possibly reduced) parent, and the advanced random state. -/
structure BirthResult where
  baby : Option Animal
  parent : Animal
  rs : RS
deriving DecidableEq

/-- `Herbivore.gives_birth(N)`: a uniform draw is always consumed for
the probability gate; when both the gate and the weight precondition
hold, a newborn `Herbivore()` is constructed (consuming a gauss draw)
and is kept only if its weight does not exceed the mother's. -/
def Herbivore.gives_birth (φ : FitnessMap) (a : Animal) (N : ℕ) (s : RS) :
    BirthResult :=
  let birth_prob := min 1 (a.gamma * a.fitness * ((N : ℚ) - 1))
  let dp := s.next
  if birth_prob > dp.1 ∧ a.zeta * (a.w_birth + a.sigma_birth) ≤ a.weight then
    let bs := Herbivore.init φ 0 none dp.2
    if bs.1.weight ≤ a.weight then
      ⟨some bs.1, Animal.weight_reduction φ a bs.1.weight, bs.2⟩
    else
      ⟨none, a, bs.2⟩
  else
    ⟨none, a, dp.2⟩

/-- `Carnivore.gives_birth(N)` (duplicated in the source for the
carnivore class). -/
def Carnivore.gives_birth (φ : FitnessMap) (a : Animal) (N : ℕ) (s : RS) :
    BirthResult :=
  let birth_prob := min 1 (a.gamma * a.fitness * ((N : ℚ) - 1))
  let dp := s.next
  if birth_prob > dp.1 ∧ a.zeta * (a.w_birth + a.sigma_birth) ≤ a.weight then
    let bs := Carnivore.init φ 0 none dp.2
    if bs.1.weight ≤ a.weight then
      ⟨some bs.1, Animal.weight_reduction φ a bs.1.weight, bs.2⟩
    else
      ⟨none, a, bs.2⟩
  else
    ⟨none, a, dp.2⟩

/-- Result of `Carnivore.hunt`: the killed prey in kill order, the
updated predator, the accumulated amount eaten, and the advanced
random state. -/
structure HuntResult where
  dead : List Animal
  carn : Animal
  eaten_amount : ℚ
  rs : RS
deriving DecidableEq

/-- The loop body of `Carnivore.hunt`, with the accumulated
`eaten_amount` and `dead_herbivores` made explicit.  The loop returns
as soon as `eaten_amount >= F`; a prey with fitness at least the
predator's is skipped; below a fitness gap of `DeltaPhiMax` the kill
is decided by a uniform draw, at or above it the kill is certain.  A
kill adds `min(F - eaten_amount, prey weight)` to the amount eaten and
`beta` times that to the predator's weight, recomputing its fitness. -/
def Carnivore.huntAux (φ : FitnessMap) (c : Animal) (eaten_amount : ℚ)
    (dead : List Animal) (s : RS) : List Animal → HuntResult
  | [] => ⟨dead, c, eaten_amount, s⟩
  | h :: hs =>
    if c.F ≤ eaten_amount then ⟨dead, c, eaten_amount, s⟩
    else if c.fitness ≤ h.fitness then
      Carnivore.huntAux φ c eaten_amount dead s hs
    else if c.fitness - h.fitness < c.DeltaPhiMax then
      if (s.next).1 < (c.fitness - h.fitness) / c.DeltaPhiMax then
        let eaten := min (c.F - eaten_amount) h.weight
        let c' := Animal.calculate_fitness φ { c with weight := c.weight + c.beta * eaten }
        Carnivore.huntAux φ c' (eaten_amount + eaten) (dead ++ [h]) (s.next).2 hs
      else
        Carnivore.huntAux φ c eaten_amount dead (s.next).2 hs
    else
      let eaten := min (c.F - eaten_amount) h.weight
      let c' := Animal.calculate_fitness φ { c with weight := c.weight + c.beta * eaten }
      Carnivore.huntAux φ c' (eaten_amount + eaten) (dead ++ [h]) s hs

/-- `Carnivore.hunt(herbivores)`. -/
def Carnivore.hunt (φ : FitnessMap) (c : Animal) (herbivores : List Animal)
    (s : RS) : HuntResult :=
  Carnivore.huntAux φ c 0 [] s herbivores

/-! ## The Geography (cell) layer -/

/-- Terrain kinds of the four `Geography` subclasses. -/
inductive Terrain
  | Lowland
  | Highland
  | Desert
  | Water
deriving DecidableEq

/-- One grid cell.  `listsPresent = false` models the `Water` cell,
whose animal-list attributes are `None` in the source (appending to
them raises `AttributeError`); every other terrain has real lists. -/
structure Geography where
  terrain : Terrain
  movable : Bool
  listsPresent : Bool
  fodder : ℚ
  f_max : ℚ
  herbivores : List Animal
  carnivores : List Animal
  migrated_herbivores : List Animal
  migrated_carnivores : List Animal
deriving DecidableEq

/-- `Lowland()` construction. -/
def Lowland.init : Geography :=
  { terrain := .Lowland, movable := true, listsPresent := true
    fodder := 0, f_max := 800
    herbivores := [], carnivores := []
    migrated_herbivores := [], migrated_carnivores := [] }

/-- `Highland()` construction. -/
def Highland.init : Geography :=
  { Lowland.init with terrain := .Highland, f_max := 500 }

/-- `Desert()` construction; the source defines no `f_max` for deserts
and its `grow_fodder` is a no-op, so the field is never read. -/
def Desert.init : Geography :=
  { Lowland.init with terrain := .Desert, f_max := 0 }

/-- `Water()` construction: not movable, and the fodder and list
attributes are `None` in the source (`listsPresent := false`). -/
def Water.init : Geography :=
  { terrain := .Water, movable := false, listsPresent := false
    fodder := 0, f_max := 0
    herbivores := [], carnivores := []
    migrated_herbivores := [], migrated_carnivores := [] }

/-- `grow_fodder`: vegetated terrains reset fodder to their `f_max`,
the desert version is a `pass`, and water cells (which have no such
method) are only ever visited under the `movable` guard. -/
def Geography.grow_fodder (g : Geography) : Geography :=
  match g.terrain with
  | .Lowland => { g with fodder := g.f_max }
  | .Highland => { g with fodder := g.f_max }
  | .Desert => g
  | .Water => g

/-- The error raised by `Geography.insert_population`: appending to a
`None` list attribute raises `AttributeError`, which the method catches
and re-raises with its own message. -/
inductive InsertErr
  | attributeErr
deriving DecidableEq

/-- One record of a population description:
`{'species': ..., 'age': ..., 'weight': ...}`. -/
structure PopRecord where
  species : String
  age : ℚ
  weight : ℚ
deriving DecidableEq

/-- `Geography.insert_population(animals)`: walk the records in order;
a `'Herbivore'` or `'Carnivore'` record is appended to the matching
resident list, raising (as `AttributeError`) when that list attribute
is `None`; a record of any other species matches neither branch and is
passed over without any effect.  The returned cell reflects the
appends made before a raise, as the source's in-place mutation does. -/
def Geography.insert_population (φ : FitnessMap) :
    Geography → List PopRecord → Geography × Option InsertErr
  | g, [] => (g, none)
  | g, r :: rs =>
    if r.species = "Herbivore" then
      if g.listsPresent then
        Geography.insert_population φ
          { g with herbivores :=
              g.herbivores ++ [(Herbivore.init φ r.age (some r.weight) ⟨[], [], [], []⟩).1] }
          rs
      else (g, some InsertErr.attributeErr)
    else if r.species = "Carnivore" then
      if g.listsPresent then
        Geography.insert_population φ
          { g with carnivores :=
              g.carnivores ++ [(Carnivore.init φ r.age (some r.weight) ⟨[], [], [], []⟩).1] }
          rs
      else (g, some InsertErr.attributeErr)
    else
      Geography.insert_population φ g rs

/-- Stable insertion into a fitness-descending list: the new element
goes in front of the first element whose fitness does not exceed it. -/
def insertByFitness (a : Animal) : List Animal → List Animal
  | [] => [a]
  | b :: bs =>
    if b.fitness ≤ a.fitness then a :: b :: bs else b :: insertByFitness a bs

/-- Stable sort by descending fitness.  Python's
`list.sort(key=..., reverse=True)` is a stable descending sort, and a
stable sort's output is uniquely determined by the input order, so this
insertion sort computes exactly the source's result. -/
def sortByFitnessDesc : List Animal → List Animal
  | [] => []
  | a :: as => insertByFitness a (sortByFitnessDesc as)

/-- `Geography.sort_herbivores_by_fitness`. -/
def Geography.sort_herbivores_by_fitness (g : Geography) : Geography :=
  { g with herbivores := sortByFitnessDesc g.herbivores }

/-- `Geography.random_carnivore_order`: shuffle the carnivore list. -/
def Geography.random_carnivore_order (g : Geography) (s : RS) : Geography × RS :=
  ({ g with carnivores := applyShuffle (s.nextShuffle).1 g.carnivores },
    (s.nextShuffle).2)

/-- `Geography.fodder_eaten(fodder_need)`: debit the pool, clamped at
zero. -/
def Geography.fodder_eaten (g : Geography) (fodder_need : ℚ) : Geography :=
  if g.fodder - fodder_need < 0 then { g with fodder := 0 }
  else { g with fodder := g.fodder - fodder_need }

/-- `Geography.herbivores_eaten(dead_herbivores)` at the list level:
remove each killed prey in order (`list.remove` drops one occurrence). -/
def herbivores_eaten (herbs dead : List Animal) : List Animal :=
  dead.foldl (fun l d => l.erase d) herbs

/-- The herbivore reproduction loop of `Geography.procreation`: walk
the residents in order, attempting a birth for each animal of nonzero
age (the candidate count `N` was fixed before the loop); parents are
updated in place and newborns are collected in birth order. -/
def procLoopH (φ : FitnessMap) (N : ℕ) :
    List Animal → RS → List Animal × List Animal × RS
  | [], s => ([], [], s)
  | a :: as, s =>
    if a.age ≠ 0 then
      let r := Herbivore.gives_birth φ a N s
      let t := procLoopH φ N as r.rs
      (r.parent :: t.1, r.baby.toList ++ t.2.1, t.2.2)
    else
      let t := procLoopH φ N as s
      (a :: t.1, t.2.1, t.2.2)

/-- The carnivore reproduction loop of `Geography.procreation`. -/
def procLoopC (φ : FitnessMap) (N : ℕ) :
    List Animal → RS → List Animal × List Animal × RS
  | [], s => ([], [], s)
  | a :: as, s =>
    if a.age ≠ 0 then
      let r := Carnivore.gives_birth φ a N s
      let t := procLoopC φ N as r.rs
      (r.parent :: t.1, r.baby.toList ++ t.2.1, t.2.2)
    else
      let t := procLoopC φ N as s
      (a :: t.1, t.2.1, t.2.2)

/-- `Geography.procreation`: for each species, count the residents of
nonzero age once, then give each such resident a reproduction attempt;
newborns are appended to the resident list and are neither candidates
nor counted this year. -/
def Geography.procreation (φ : FitnessMap) (g : Geography) (s : RS) :
    Geography × RS :=
  let N_h := (g.herbivores.filter fun a => a.age ≠ 0).length
  let th := procLoopH φ N_h g.herbivores s
  let N_c := (g.carnivores.filter fun a => a.age ≠ 0).length
  let tc := procLoopC φ N_c g.carnivores th.2.2
  ({ g with herbivores := th.1 ++ th.2.1, carnivores := tc.1 ++ tc.2.1 }, tc.2.2)

/-- `Geography.migration_finished`: merge both transit lists into the
resident lists and clear them. -/
def Geography.migration_finished (g : Geography) : Geography :=
  { g with
    herbivores := g.herbivores ++ g.migrated_herbivores
    migrated_herbivores := []
    carnivores := g.carnivores ++ g.migrated_carnivores
    migrated_carnivores := [] }

/-- `Geography.animal_aging`: every resident ages once (the update
consumes no randomness). -/
def Geography.animal_aging (φ : FitnessMap) (g : Geography) : Geography :=
  { g with
    herbivores := g.herbivores.map (Animal.update_age φ)
    carnivores := g.carnivores.map (Animal.update_age φ) }

/-- The list comprehension of `Geography.animal_death`: evaluate
`dies` for every animal in order, collecting the dead ones. -/
def diesList : List Animal → RS → List Animal × RS
  | [], s => ([], s)
  | a :: as, s =>
    let d := a.dies s
    let t := diesList as d.2
    ((if d.1 then [a] else []) ++ t.1, t.2)

/-- The removal loop of `Geography.animal_death`. -/
def removeDead (g : Geography) (dead : List Animal) : Geography :=
  dead.foldl
    (fun g' d =>
      if d ∈ g'.herbivores then { g' with herbivores := g'.herbivores.erase d }
      else if d ∈ g'.carnivores then { g' with carnivores := g'.carnivores.erase d }
      else g')
    g

/-- `Geography.animal_death`: collect the animals that die (herbivores
first, then carnivores, as `itertools.chain` yields them), then remove
each from its resident list. -/
def Geography.animal_death (g : Geography) (s : RS) : Geography × RS :=
  let t := diesList (g.herbivores ++ g.carnivores) s
  (removeDead g t.1, t.2)

/-! ## The island (grid) layer and `BioSim.simulate` -/

/-- Grid coordinates `(x, y)`. -/
abbrev Coord := ℤ × ℤ

/-- The island dictionary mapping coordinates to cells.  `create_island`
guarantees a water border, so coordinates outside the constructed map
behave like water in every theorem below (hypothesised explicitly). -/
abbrev Island := Coord → Geography

/-- Point update of the island dictionary (`island[coord] = cell`
object mutation in the source). -/
def updateIsl (isl : Island) (q : Coord) (v : Geography) : Island :=
  fun p => if p = q then v else isl p

/-- The four orthogonal neighbours offered to `random.choice` in
`animal_migration`, in the source's order. -/
def neighborCoord (c : Coord) (k : Fin 4) : Coord :=
  if k.val = 0 then (c.1 + 1, c.2)
  else if k.val = 1 then (c.1 - 1, c.2)
  else if k.val = 2 then (c.1, c.2 + 1)
  else (c.1, c.2 - 1)

/-- One iteration of the `animal_migration` loop for the animal `a`
settled at `c₀`: choose a neighbour; when it is movable, consume a
uniform draw and, on success, append `a` to the neighbour's transit
list of its species and remove it from its resident list here. -/
def migStep (c₀ : Coord) (isl : Island) (a : Animal) (s : RS) : Island × RS :=
  let s₁ := (s.nextChoice).2
  let nc := neighborCoord c₀ (s.nextChoice).1
  if (isl nc).movable then
    let s₂ := (s₁.next).2
    if a.migration_prob > (s₁.next).1 then
      if a ∈ (isl c₀).herbivores then
        let isl₁ := updateIsl isl nc
          { isl nc with migrated_herbivores := (isl nc).migrated_herbivores ++ [a] }
        (updateIsl isl₁ c₀
          { isl₁ c₀ with herbivores := (isl₁ c₀).herbivores.erase a }, s₂)
      else if a ∈ (isl c₀).carnivores then
        let isl₁ := updateIsl isl nc
          { isl nc with migrated_carnivores := (isl nc).migrated_carnivores ++ [a] }
        (updateIsl isl₁ c₀
          { isl₁ c₀ with carnivores := (isl₁ c₀).carnivores.erase a }, s₂)
      else (isl, s₂)
    else (isl, s₂)
  else (isl, s₁)

/-- `Geography.animal_migration(island, current_coordinate)`: iterate a
snapshot copy of this cell's residents taken before any removal. -/
def Geography.animal_migration (isl : Island) (c₀ : Coord) (s : RS) :
    Island × RS :=
  let snapshot := (isl c₀).herbivores ++ (isl c₀).carnivores
  snapshot.foldl (fun p a => migStep c₀ p.1 a p.2) (isl, s)

/-- The herbivore feeding loop of `BioSim.simulate`: each herbivore in
(already sorted) order feeds from the cell's current fodder, and the
amount eaten is debited from the pool before the next feeds. -/
def feedLoop (φ : FitnessMap) (g : Geography) : List Animal → List Animal × Geography
  | [] => ([], g)
  | a :: as =>
    let fa := Herbivore.feed φ a g.fodder
    let t := feedLoop φ (g.fodder_eaten fa.2) as
    (fa.1 :: t.1, t.2)

/-- The fodder-growth + herbivore-feeding stage of one cell's phase 1
(`simulate`, the loop after `sort_herbivores_by_fitness`). -/
def herbivoreFeeding (φ : FitnessMap) (g : Geography) : Geography :=
  let t := feedLoop φ g g.herbivores
  { t.2 with herbivores := t.1 }

/-- The carnivore feeding loop of `BioSim.simulate`: each carnivore in
turn hunts the cell's current prey list, and its kills are removed
(`herbivores_eaten`) before the next carnivore hunts. -/
def carnLoop (φ : FitnessMap) :
    List Animal → List Animal → RS → List Animal × List Animal × RS
  | [], herbs, s => ([], herbs, s)
  | c :: cs, herbs, s =>
    let r := Carnivore.hunt φ c herbs s
    let t := carnLoop φ cs (herbivores_eaten herbs r.dead) r.rs
    (r.carn :: t.1, t.2.1, t.2.2)

/-- The same loop instrumented to record, for each carnivore, the prey
list it was handed and the prey it killed.  This is the recursion of
`carnLoop` with its intermediate states exposed. -/
def carnLoopTrace (φ : FitnessMap) :
    List Animal → List Animal → RS → List (List Animal × List Animal)
  | [], _, _ => []
  | c :: cs, herbs, s =>
    let r := Carnivore.hunt φ c herbs s
    (herbs, r.dead) :: carnLoopTrace φ cs (herbivores_eaten herbs r.dead) r.rs

/-- The carnivore feeding stage of one cell's phase 1: shuffle the
carnivores into a random order, then run the hunting loop. -/
def carnivoreFeeding (φ : FitnessMap) (g : Geography) (s : RS) :
    Geography × RS :=
  let go := g.random_carnivore_order s
  let t := carnLoop φ go.1.carnivores go.1.herbivores go.2
  ({ go.1 with carnivores := t.1, herbivores := t.2.1 }, t.2.2)

/-- The per-year statistics lists that `simulate` accumulates for the
visualisation layer. -/
structure YearStats where
  herb_pop : List ℕ
  carn_pop : List ℕ
  herb_weights : List ℚ
  carn_weights : List ℚ
  herb_fitness : List ℚ
  carn_fitness : List ℚ
  herb_age : List ℚ
  carn_age : List ℚ
deriving DecidableEq

/-- The empty statistics lists set up at the top of each simulated
year. -/
def YearStats.empty : YearStats := ⟨[], [], [], [], [], [], [], []⟩

/-- The body of `simulate`'s first per-cell loop (phase 1): append this
cell's population counts (`len(None)` raises `TypeError` for water, so
zero is recorded there), and, for a movable cell, append the weight,
fitness and age lists and then run fodder growth, herbivore feeding,
carnivore feeding, procreation and migration. -/
def phase1Cell (φ : FitnessMap) (isl : Island) (c : Coord) (st : YearStats)
    (s : RS) : Island × YearStats × RS :=
  let g := isl c
  let st₁ :=
    if g.listsPresent then
      { st with herb_pop := st.herb_pop ++ [g.herbivores.length]
                carn_pop := st.carn_pop ++ [g.carnivores.length] }
    else
      { st with herb_pop := st.herb_pop ++ [0], carn_pop := st.carn_pop ++ [0] }
  if g.movable then
    let st₂ :=
      { st₁ with
        herb_weights := st₁.herb_weights ++ g.herbivores.map (·.weight)
        carn_weights := st₁.carn_weights ++ g.carnivores.map (·.weight)
        herb_fitness := st₁.herb_fitness ++ g.herbivores.map (·.fitness)
        carn_fitness := st₁.carn_fitness ++ g.carnivores.map (·.fitness)
        herb_age := st₁.herb_age ++ g.herbivores.map (·.age)
        carn_age := st₁.carn_age ++ g.carnivores.map (·.age) }
    let g₃ := herbivoreFeeding φ g.grow_fodder.sort_herbivores_by_fitness
    let t₄ := carnivoreFeeding φ g₃ s
    let t₅ := Geography.procreation φ t₄.1 t₄.2
    let t₆ := Geography.animal_migration (updateIsl isl c t₅.1) c t₅.2
    (t₆.1, st₂, t₆.2)
  else (isl, st₁, s)

/-- The body of `simulate`'s second per-cell loop (phase 2): for a
movable cell, merge the migrants, age every resident, and apply
death. -/
def phase2Cell (φ : FitnessMap) (isl : Island) (c : Coord) (s : RS) :
    Island × RS :=
  if (isl c).movable then
    let t := ((isl c).migration_finished.animal_aging φ).animal_death s
    (updateIsl isl c t.1, t.2)
  else (isl, s)

/-- The migration part of phase 1 across a traversal order `cs` of the
island's coordinates (each movable cell migrates in turn; the other
phase-1 stages touch only the cell itself and are irrelevant to the
grid-total bookkeeping). -/
def migrationPass (isl : Island) (cs : List Coord) (s : RS) : Island × RS :=
  cs.foldl
    (fun p c =>
      if (p.1 c).movable then Geography.animal_migration p.1 c p.2 else p)
    (isl, s)

/-- The merge stage of phase 2 across a traversal order `cs`. -/
def mergePass (isl : Island) (cs : List Coord) : Island :=
  cs.foldl
    (fun i c =>
      if (i c).movable then updateIsl i c (i c).migration_finished else i)
    isl

/-- Residents of a cell. -/
def residentCount (g : Geography) : ℕ :=
  g.herbivores.length + g.carnivores.length

/-- Animals in a cell's transit lists. -/
def transitCount (g : Geography) : ℕ :=
  g.migrated_herbivores.length + g.migrated_carnivores.length

/-- All animals of a cell, resident and in transit. -/
def cellAnimals (g : Geography) : List Animal :=
  g.herbivores ++ g.carnivores ++ g.migrated_herbivores ++ g.migrated_carnivores

/-! ## The fitness formula over the reals

`Animal.calculate_fitness` computes
`1/(1 + e^(phi_age*(age - a_half))) * 1/(1 + e^(-phi_weight*(weight - w_half)))`
when `weight > 0` and `0` otherwise.  The formula uses the real
exponential, so its mathematical shape is embedded over `ℝ`. -/

/-- The age sigmoid of `Animal.calculate_fitness`. -/
noncomputable def ageFactor (phi_age a_half age : ℝ) : ℝ :=
  1 / (1 + Real.exp (phi_age * (age - a_half)))

/-- The weight sigmoid of `Animal.calculate_fitness`. -/
noncomputable def weightFactor (phi_weight w_half weight : ℝ) : ℝ :=
  1 / (1 + Real.exp (-phi_weight * (weight - w_half)))

/-- The complete fitness value of `Animal.calculate_fitness`. -/
noncomputable def fitnessFormula (phi_age a_half phi_weight w_half age weight : ℝ) : ℝ :=
  if weight ≤ 0 then 0
  else ageFactor phi_age a_half age * weightFactor phi_weight w_half weight

/-- All animals of a list have nonnegative weight. -/
def allWeightsNonneg (l : List Animal) : Prop := ∀ a ∈ l, 0 ≤ a.weight

/-- The parameter fields that the weight bookkeeping relies on, as the
default parameters of both species satisfy them: nonnegative growth
factor and max intake, aging loss rate in `[0, 1]`. -/
def allParamsValid (l : List Animal) : Prop :=
  ∀ a ∈ l, 0 ≤ a.beta ∧ 0 ≤ a.eta ∧ a.eta ≤ 1 ∧ 0 ≤ a.F

/-! ## Concrete inputs for closed evaluations -/

/-- A concrete stand-in fitness map (a value in `(0, 1)` for the
weights that occur below), used wherever a closed statement must
evaluate the engine on explicit inputs. -/
def fitLin : FitnessMap := fun a => a.weight / 100

/-- The empty random state. -/
def rs0 : RS := ⟨[], [], [], []⟩

/-- A herbivore parent for closed reproduction runs: default
parameters, age 5, weight 40, stored fitness `1/2`. -/
def parentH : Animal := { Herbivore.paramBase 5 40 with fitness := 0.5 }

/-- A carnivore parent for closed reproduction runs. -/
def parentC : Animal := { Carnivore.paramBase 5 40 with fitness := 0.5 }

/-- One uniform draw `0.1` (passing the probability gate) and one
standard-normal draw `0` (birth weight equal to the species mean). -/
def rsBirth : RS := ⟨[0.1], [0], [], []⟩

/-- The newborn herbivore produced on `rsBirth` after the gate draw. -/
def babyH : Animal := (Herbivore.init fitLin 0 none ⟨[], [0], [], []⟩).1

/-- The newborn carnivore produced on `rsBirth` after the gate draw. -/
def babyC : Animal := (Carnivore.init fitLin 0 none ⟨[], [0], [], []⟩).1

/-- A parameter override setting `gamma := 1`. -/
def overrideG : ParamDict := { gamma := some 1 }

/-- A concrete carnivore for closed hunting runs: default parameters,
age 5, weight 30, stored fitness `0.3`. -/
def huntCarn : Animal := { Carnivore.paramBase 5 30 with fitness := 0.3 }

/-- A concrete prey herbivore: default parameters, age 3, weight 20,
stored fitness `0.2`. -/
def preyH : Animal := { Herbivore.paramBase 3 20 with fitness := 0.2 }

/-- A random state whose first uniform draw `0` makes the first kill
attempt succeed. -/
def rsHunt : RS := ⟨[0], [], [], []⟩

/-- A random state whose first uniform draw `0.9` makes the first kill
attempt fail. -/
def rsNoKill : RS := ⟨[0.9], [], [], []⟩

/-- A herbivore as inserted by a population record `(age 5, weight 20)`. -/
def herbC5 : Animal := (Herbivore.init fitLin 5 (some 20) rs0).1

/-- A lowland cell holding the single herbivore `herbC5`. -/
def lowCellC5 : Geography := { Lowland.init with herbivores := [herbC5] }

/-- A one-cell island: lowland at `(1, 1)`, water everywhere else
(matching the map `WWW/WLW/WWW` restricted to its passable cell). -/
def islandC5 : Island := fun p => if p = ((1 : ℤ), (1 : ℤ)) then lowCellC5 else Water.init

/-- A lowland cell with two breeding-age herbivore parents. -/
def c3Cell : Geography := { Lowland.init with herbivores := [parentH, parentH] }

/-- Uniform draws `0, 0.9` (first birth gate passes, second fails) and
one standard-normal draw `-6` (a negative birth weight `8 + 1.5·(-6)
= -1`). -/
def rsC3 : RS := ⟨[0, 0.9], [-6], [], []⟩

/-- A one-cell island whose lowland cell holds one resident and one
in-transit herbivore. -/
def islandC8 : Island := fun p =>
  if p = ((1 : ℤ), (1 : ℤ)) then
    { Lowland.init with herbivores := [herbC5], migrated_herbivores := [preyH] }
  else Water.init

/-! # Theorems -/

lemma one_add_exp_pos (x : ℝ) : 0 < 1 + Real.exp x := by positivity

lemma sigmoidTerm_pos (x : ℝ) : 0 < 1 / (1 + Real.exp x) := by positivity

lemma sigmoidTerm_lt_one (x : ℝ) : 1 / (1 + Real.exp x) < 1 := by
  rw [div_lt_one (one_add_exp_pos x)]
  linarith [Real.exp_pos x]

lemma sigmoidTerm_strictAnti {x y : ℝ} (h : x < y) :
    1 / (1 + Real.exp y) < 1 / (1 + Real.exp x) := by
  exact one_div_lt_one_div_of_lt (one_add_exp_pos x)
    (by linarith [Real.exp_lt_exp.mpr h])

/-- **C9.**  For every animal with positive weight and positive
steepness constants, the age factor of `Animal.calculate_fitness` is
strictly decreasing in age and the weight factor strictly increasing
in weight; the resulting fitness always lies in `[0, 1]` and equals
`0` whenever the weight is nonpositive. -/
theorem claim9_fitness_shape
    (phi_age a_half phi_weight w_half age age' weight weight' a₁ w₁ a₀ w₀ : ℝ)
    (hphia : 0 < phi_age) (hphiw : 0 < phi_weight)
    (hage : age < age') (hwt : weight < weight') (hw0 : w₀ ≤ 0) :
    ageFactor phi_age a_half age' < ageFactor phi_age a_half age ∧
    weightFactor phi_weight w_half weight < weightFactor phi_weight w_half weight' ∧
    0 ≤ fitnessFormula phi_age a_half phi_weight w_half a₁ w₁ ∧
    fitnessFormula phi_age a_half phi_weight w_half a₁ w₁ ≤ 1 ∧
    fitnessFormula phi_age a_half phi_weight w_half a₀ w₀ = 0 := by
  refine ⟨?_, ?_, ?_, ?_, ?_⟩
  · unfold ageFactor
    exact sigmoidTerm_strictAnti (by nlinarith)
  · unfold weightFactor
    exact sigmoidTerm_strictAnti (by nlinarith)
  · unfold fitnessFormula
    split
    · norm_num
    · exact le_of_lt (mul_pos (sigmoidTerm_pos _) (sigmoidTerm_pos _))
  · unfold fitnessFormula
    split
    · norm_num
    · have h1 := sigmoidTerm_pos (phi_age * (a₁ - a_half))
      have h2 := sigmoidTerm_lt_one (phi_age * (a₁ - a_half))
      have h3 := sigmoidTerm_pos (-phi_weight * (w₁ - w_half))
      have h4 := sigmoidTerm_lt_one (-phi_weight * (w₁ - w_half))
      unfold ageFactor weightFactor
      nlinarith
  · unfold fitnessFormula
    simp [hw0]

/-- Closed instance of `claim9_fitness_shape` at the herbivore defaults
`phi_age = 0.6`, `a_half = 40`, `phi_weight = 0.1`, `w_half = 10`. -/
theorem claim9_fitness_shape_witness :
    ageFactor 0.6 40 6 < ageFactor 0.6 40 5 ∧
    weightFactor 0.1 10 20 < weightFactor 0.1 10 21 ∧
    0 ≤ fitnessFormula 0.6 40 0.1 10 3 7 ∧
    fitnessFormula 0.6 40 0.1 10 3 7 ≤ 1 ∧
    fitnessFormula 0.6 40 0.1 10 2 (-1) = 0 :=
  claim9_fitness_shape 0.6 40 0.1 10 5 6 20 21 3 7 2 (-1)
    (by norm_num) (by norm_num) (by norm_num) (by norm_num) (by norm_num)

lemma calculate_fitness_weight (φ : FitnessMap) (a : Animal) :
    (Animal.calculate_fitness φ a).weight = a.weight := by
  unfold Animal.calculate_fitness
  split <;> rfl

lemma calculate_fitness_age (φ : FitnessMap) (a : Animal) :
    (Animal.calculate_fitness φ a).age = a.age := by
  unfold Animal.calculate_fitness
  split <;> rfl

/-- A reproduction attempt that returns no offspring leaves the whole
parent record untouched (herbivore case). -/
lemma gives_birth_none_H (φ : FitnessMap) (a : Animal) (N : ℕ) (s : RS)
    (h : (Herbivore.gives_birth φ a N s).baby = none) :
    (Herbivore.gives_birth φ a N s).parent = a := by
  by_cases hc : min 1 (a.gamma * a.fitness * ((N : ℚ) - 1)) > (s.next).1 ∧
      a.zeta * (a.w_birth + a.sigma_birth) ≤ a.weight
  · by_cases hb : (Herbivore.init φ 0 none (s.next).2).1.weight ≤ a.weight
    · exfalso
      simp only [Herbivore.gives_birth] at h
      rw [if_pos hc, if_pos hb] at h
      simp at h
    · simp only [Herbivore.gives_birth]
      rw [if_pos hc, if_neg hb]
  · simp only [Herbivore.gives_birth]
    rw [if_neg hc]

/-- A reproduction attempt that returns no offspring leaves the whole
parent record untouched (carnivore case). -/
lemma gives_birth_none_C (φ : FitnessMap) (a : Animal) (N : ℕ) (s : RS)
    (h : (Carnivore.gives_birth φ a N s).baby = none) :
    (Carnivore.gives_birth φ a N s).parent = a := by
  by_cases hc : min 1 (a.gamma * a.fitness * ((N : ℚ) - 1)) > (s.next).1 ∧
      a.zeta * (a.w_birth + a.sigma_birth) ≤ a.weight
  · by_cases hb : (Carnivore.init φ 0 none (s.next).2).1.weight ≤ a.weight
    · exfalso
      simp only [Carnivore.gives_birth] at h
      rw [if_pos hc, if_pos hb] at h
      simp at h
    · simp only [Carnivore.gives_birth]
      rw [if_pos hc, if_neg hb]
  · simp only [Carnivore.gives_birth]
    rw [if_neg hc]

/-- **C7.**  Whenever a reproduction attempt returns nothing — the
probability/weight gate fails, or the drawn offspring weight exceeds
the parent's current weight — the parent's age, weight and fitness
(indeed its whole record) are unchanged by the call, for both species. -/
theorem claim7_failed_birth_no_mutation (φ : FitnessMap)
    (a b : Animal) (N M : ℕ) (s t : RS)
    (hH : (Herbivore.gives_birth φ a N s).baby = none)
    (hC : (Carnivore.gives_birth φ b M t).baby = none) :
    (Herbivore.gives_birth φ a N s).parent = a ∧
    (Carnivore.gives_birth φ b M t).parent = b :=
  ⟨gives_birth_none_H φ a N s hH, gives_birth_none_C φ b M t hC⟩

/-- Closed instance of `claim7_failed_birth_no_mutation`: on the empty
random tape the uniform draw defaults to `0` and the birth probability
of a zero-fitness parent is `0`, so the gate `0 > 0` fails and both
calls return nothing. -/
theorem claim7_failed_birth_no_mutation_witness :
    (Herbivore.gives_birth fitLin (Herbivore.paramBase 5 20) 2 rs0).baby = none ∧
    (Carnivore.gives_birth fitLin (Carnivore.paramBase 5 20) 2 rs0).baby = none ∧
    (Herbivore.gives_birth fitLin (Herbivore.paramBase 5 20) 2 rs0).parent =
      Herbivore.paramBase 5 20 ∧
    (Carnivore.gives_birth fitLin (Carnivore.paramBase 5 20) 2 rs0).parent =
      Carnivore.paramBase 5 20 := by
  have hH : (Herbivore.gives_birth fitLin (Herbivore.paramBase 5 20) 2 rs0).baby = none := by
    norm_num [Herbivore.gives_birth, Herbivore.paramBase, rs0, RS.next]
  have hC : (Carnivore.gives_birth fitLin (Carnivore.paramBase 5 20) 2 rs0).baby = none := by
    norm_num [Carnivore.gives_birth, Carnivore.paramBase, rs0, RS.next]
  exact ⟨hH, hC,
    (claim7_failed_birth_no_mutation fitLin (Herbivore.paramBase 5 20)
      (Carnivore.paramBase 5 20) 2 2 rs0 rs0 hH hC).1,
    (claim7_failed_birth_no_mutation fitLin (Herbivore.paramBase 5 20)
      (Carnivore.paramBase 5 20) 2 2 rs0 rs0 hH hC).2⟩

/-- A successful herbivore birth returns exactly the newborn built by
`Herbivore.init` on the post-gate random state. -/
lemma gives_birth_some_eq_H (φ : FitnessMap) (a : Animal) (N : ℕ) (s : RS)
    (b : Animal) (h : (Herbivore.gives_birth φ a N s).baby = some b) :
    b = (Herbivore.init φ 0 none (s.next).2).1 ∧ b.weight ≤ a.weight ∧
    (Herbivore.gives_birth φ a N s).parent = Animal.weight_reduction φ a b.weight := by
  by_cases hc : min 1 (a.gamma * a.fitness * ((N : ℚ) - 1)) > (s.next).1 ∧
      a.zeta * (a.w_birth + a.sigma_birth) ≤ a.weight
  · by_cases hb : (Herbivore.init φ 0 none (s.next).2).1.weight ≤ a.weight
    · simp only [Herbivore.gives_birth] at h ⊢
      rw [if_pos hc, if_pos hb] at h ⊢
      simp only [Option.some.injEq] at h
      subst h
      exact ⟨rfl, hb, rfl⟩
    · exfalso
      simp only [Herbivore.gives_birth] at h
      rw [if_pos hc, if_neg hb] at h
      simp at h
  · exfalso
    simp only [Herbivore.gives_birth] at h
    rw [if_neg hc] at h
    simp at h

/-- A successful carnivore birth returns exactly the newborn built by
`Carnivore.init` on the post-gate random state. -/
lemma gives_birth_some_eq_C (φ : FitnessMap) (a : Animal) (N : ℕ) (s : RS)
    (b : Animal) (h : (Carnivore.gives_birth φ a N s).baby = some b) :
    b = (Carnivore.init φ 0 none (s.next).2).1 ∧ b.weight ≤ a.weight ∧
    (Carnivore.gives_birth φ a N s).parent = Animal.weight_reduction φ a b.weight := by
  by_cases hc : min 1 (a.gamma * a.fitness * ((N : ℚ) - 1)) > (s.next).1 ∧
      a.zeta * (a.w_birth + a.sigma_birth) ≤ a.weight
  · by_cases hb : (Carnivore.init φ 0 none (s.next).2).1.weight ≤ a.weight
    · simp only [Carnivore.gives_birth] at h ⊢
      rw [if_pos hc, if_pos hb] at h ⊢
      simp only [Option.some.injEq] at h
      subst h
      exact ⟨rfl, hb, rfl⟩
    · exfalso
      simp only [Carnivore.gives_birth] at h
      rw [if_pos hc, if_neg hb] at h
      simp at h
  · exfalso
    simp only [Carnivore.gives_birth] at h
    rw [if_neg hc] at h
    simp at h

lemma weight_reduction_weight (φ : FitnessMap) (a : Animal) (bw : ℚ) :
    (Animal.weight_reduction φ a bw).weight = a.weight - bw := by
  unfold Animal.weight_reduction
  rw [calculate_fitness_weight]

/-- **C4 (amended).**  Whenever a reproduction attempt returns an
offspring, the parent's weight decreases by *exactly* the offspring's
weight (for every successful birth, not only at the acceptance
boundary); hence reproduction never increases — indeed it preserves —
the total biomass of parent plus offspring. -/
theorem claim4_biomass_amended (φ : FitnessMap) (a c : Animal) (N M : ℕ)
    (s t : RS) (b d : Animal)
    (hH : (Herbivore.gives_birth φ a N s).baby = some b)
    (hC : (Carnivore.gives_birth φ c M t).baby = some d) :
    a.weight - (Herbivore.gives_birth φ a N s).parent.weight = b.weight ∧
    (Herbivore.gives_birth φ a N s).parent.weight + b.weight = a.weight ∧
    c.weight - (Carnivore.gives_birth φ c M t).parent.weight = d.weight ∧
    (Carnivore.gives_birth φ c M t).parent.weight + d.weight = c.weight := by
  obtain ⟨-, -, hpH⟩ := gives_birth_some_eq_H φ a N s b hH
  obtain ⟨-, -, hpC⟩ := gives_birth_some_eq_C φ c M t d hC
  rw [hpH, hpC, weight_reduction_weight, weight_reduction_weight]
  refine ⟨by ring, by ring, by ring, by ring⟩

/-- Closed instance of `claim4_biomass_amended`: parents of weight 40
and stored fitness `1/2` each deliver a newborn of mean birth weight
(8 for the herbivore, 6 for the carnivore). -/
theorem claim4_biomass_amended_witness :
    (Herbivore.gives_birth fitLin parentH 3 rsBirth).baby = some babyH ∧
    (Carnivore.gives_birth fitLin parentC 3 rsBirth).baby = some babyC ∧
    parentH.weight - (Herbivore.gives_birth fitLin parentH 3 rsBirth).parent.weight
      = babyH.weight ∧
    parentC.weight - (Carnivore.gives_birth fitLin parentC 3 rsBirth).parent.weight
      = babyC.weight := by
  have hH : (Herbivore.gives_birth fitLin parentH 3 rsBirth).baby = some babyH := by
    norm_num [Herbivore.gives_birth, parentH, Herbivore.paramBase, rsBirth, RS.next,
      babyH, Herbivore.init, rgauss, RS.nextGauss, Animal.calculate_fitness, fitLin]
  have hC : (Carnivore.gives_birth fitLin parentC 3 rsBirth).baby = some babyC := by
    norm_num [Carnivore.gives_birth, parentC, Carnivore.paramBase, rsBirth, RS.next,
      babyC, Carnivore.init, rgauss, RS.nextGauss, Animal.calculate_fitness, fitLin]
  exact ⟨hH, hC,
    (claim4_biomass_amended fitLin parentH parentC 3 3 rsBirth rsBirth babyH babyC hH hC).1,
    (claim4_biomass_amended fitLin parentH parentC 3 3 rsBirth rsBirth babyH babyC hH hC).2.2.1⟩

/-- **C4, counterexample.**  A successful birth away from the
acceptance boundary: the parent (pre-birth weight 40) loses exactly
the offspring's weight 8, so "parent weight loss ≥ offspring weight
with equality *only* when the offspring weight equals the parent's
pre-birth weight" fails — equality holds here although `8 ≠ 40`. -/
theorem claim4_biomass_cex :
    (Herbivore.gives_birth fitLin parentH 3 rsBirth).baby.map (fun b => b.weight)
      = some 8 ∧
    parentH.weight - (Herbivore.gives_birth fitLin parentH 3 rsBirth).parent.weight
      = 8 ∧
    parentH.weight = 40 ∧ (8 : ℚ) ≠ 40 := by
  refine ⟨?_, ?_, by norm_num [parentH, Herbivore.paramBase], by norm_num⟩
  · norm_num [Herbivore.gives_birth, parentH, Herbivore.paramBase, rsBirth, RS.next,
      Herbivore.init, rgauss, RS.nextGauss, Animal.calculate_fitness, fitLin]
  · norm_num [Herbivore.gives_birth, parentH, Herbivore.paramBase, rsBirth, RS.next,
      Herbivore.init, rgauss, RS.nextGauss, Animal.calculate_fitness, fitLin,
      Animal.weight_reduction]

/-- **C10.**  Every offspring returned by a reproduction attempt
carries the default species parameter constants, regardless of any
override previously applied to its parent through
`Animal.set_animal_params` (the orchestrator's
`set_animal_parameters` mutates only animals alive at call time): the
newborn is built by the species constructor from its default
attributes. -/
theorem claim10_offspring_default_params (φ : FitnessMap) (p q : ParamDict)
    (a c : Animal) (N M : ℕ) (s t : RS) (b d : Animal)
    (hH : (Herbivore.gives_birth φ (a.set_animal_params p) N s).baby = some b)
    (hC : (Carnivore.gives_birth φ (c.set_animal_params q) M t).baby = some d) :
    (b.age = 0 ∧ b.a_half = 40 ∧ b.zeta = 3.5 ∧ b.phi_age = 0.6 ∧
      b.phi_weight = 0.1 ∧ b.w_half = 10 ∧ b.mu = 0.25 ∧ b.omega = 0.4 ∧
      b.eta = 0.05 ∧ b.sigma_birth = 1.5 ∧ b.w_birth = 8 ∧ b.beta = 0.9 ∧
      b.gamma = 0.2 ∧ b.xi = 1.2 ∧ b.F = 10) ∧
    (d.age = 0 ∧ d.a_half = 40 ∧ d.zeta = 3.5 ∧ d.phi_age = 0.3 ∧
      d.phi_weight = 0.4 ∧ d.w_half = 4 ∧ d.mu = 0.4 ∧ d.omega = 0.8 ∧
      d.eta = 0.125 ∧ d.sigma_birth = 1 ∧ d.w_birth = 6 ∧ d.beta = 0.75 ∧
      d.gamma = 0.8 ∧ d.xi = 1.1 ∧ d.F = 50 ∧ d.DeltaPhiMax = 10) := by
  obtain ⟨hb, -, -⟩ := gives_birth_some_eq_H φ _ N s b hH
  obtain ⟨hd, -, -⟩ := gives_birth_some_eq_C φ _ M t d hC
  subst hb
  subst hd
  constructor
  · simp only [Herbivore.init, Animal.calculate_fitness]
    split <;> norm_num [Herbivore.paramBase]
  · simp only [Carnivore.init, Animal.calculate_fitness]
    split <;> norm_num [Carnivore.paramBase]

/-- Closed instance of `claim10_offspring_default_params`: both parents
carry the override `gamma := 1`, the births succeed, and the newborns
still carry the default `gamma` (`0.2` and `0.8`). -/
theorem claim10_offspring_default_params_witness :
    (Herbivore.gives_birth fitLin (parentH.set_animal_params overrideG) 3
      rsBirth).baby = some babyH ∧
    (Carnivore.gives_birth fitLin (parentC.set_animal_params overrideG) 3
      rsBirth).baby = some babyC ∧
    (parentH.set_animal_params overrideG).gamma = 1 ∧
    babyH.gamma = 0.2 ∧ babyC.gamma = 0.8 := by
  have hH : (Herbivore.gives_birth fitLin (parentH.set_animal_params overrideG) 3
      rsBirth).baby = some babyH := by
    norm_num [Herbivore.gives_birth, Animal.set_animal_params, overrideG, parentH,
      Herbivore.paramBase, rsBirth, RS.next, babyH, Herbivore.init, rgauss,
      RS.nextGauss, Animal.calculate_fitness, fitLin]
  have hC : (Carnivore.gives_birth fitLin (parentC.set_animal_params overrideG) 3
      rsBirth).baby = some babyC := by
    norm_num [Carnivore.gives_birth, Animal.set_animal_params, overrideG, parentC,
      Carnivore.paramBase, rsBirth, RS.next, babyC, Carnivore.init, rgauss,
      RS.nextGauss, Animal.calculate_fitness, fitLin]
  have h10 := claim10_offspring_default_params fitLin overrideG overrideG
    parentH parentC 3 3 rsBirth rsBirth babyH babyC hH hC
  obtain ⟨⟨-, -, -, -, -, -, -, -, -, -, -, -, hbg, -, -⟩,
    ⟨-, -, -, -, -, -, -, -, -, -, -, -, hdg, -, -, -⟩⟩ := h10
  exact ⟨hH, hC,
    by norm_num [Animal.set_animal_params, overrideG, parentH, Herbivore.paramBase],
    hbg, hdg⟩

lemma calculate_fitness_F (φ : FitnessMap) (a : Animal) :
    (Animal.calculate_fitness φ a).F = a.F := by
  unfold Animal.calculate_fitness
  split <;> rfl

lemma calculate_fitness_beta (φ : FitnessMap) (a : Animal) :
    (Animal.calculate_fitness φ a).beta = a.beta := by
  unfold Animal.calculate_fitness
  split <;> rfl

/-- **C6.**  For every predator hunt over an ordered prey list (stated
for the loop `Carnivore.huntAux` at any accumulator value `e`, so in
particular for `Carnivore.hunt`, which starts at `e = 0`):
accumulated consumption never decreases and never exceeds the species
max intake `F`; the predator's total weight gain is exactly `beta`
times the newly consumed amount (each kill contributing
`min(F - eaten_amount, prey weight)`), hence at most `beta * F`; and
once consumption has reached `F` no further prey is attacked — the
loop returns its state unchanged. -/
theorem claim6_hunt_intake_cap (φ : FitnessMap) (c : Animal) (e : ℚ)
    (dead : List Animal) (s : RS) (herbs : List Animal)
    (hF : 0 ≤ c.F) (hb : 0 ≤ c.beta) (he0 : 0 ≤ e) (heF : e ≤ c.F)
    (hw : ∀ h ∈ herbs, 0 ≤ h.weight) :
    e ≤ (Carnivore.huntAux φ c e dead s herbs).eaten_amount ∧
    (Carnivore.huntAux φ c e dead s herbs).eaten_amount ≤ c.F ∧
    (Carnivore.huntAux φ c e dead s herbs).carn.weight =
      c.weight + c.beta * ((Carnivore.huntAux φ c e dead s herbs).eaten_amount - e) ∧
    (Carnivore.huntAux φ c e dead s herbs).carn.weight ≤ c.weight + c.beta * c.F ∧
    (c.F ≤ e → Carnivore.huntAux φ c e dead s herbs = ⟨dead, c, e, s⟩) := by
  induction herbs generalizing c e dead s with
  | nil =>
    simp only [Carnivore.huntAux]
    refine ⟨le_refl e, heF, by ring, ?_, by simp⟩
    have h2 : 0 ≤ c.beta * (c.F - e) := mul_nonneg hb (by linarith)
    have h3 : c.beta * (c.F - e) ≤ c.beta * c.F := by nlinarith
    linarith
  | cons h hs ih =>
    by_cases h1 : c.F ≤ e
    · simp only [Carnivore.huntAux]
      rw [if_pos h1]
      refine ⟨le_refl e, heF, by ring, ?_, fun _ => rfl⟩
      have : 0 ≤ c.beta * c.F := mul_nonneg hb hF
      linarith
    · have hwh : 0 ≤ h.weight := hw h (List.mem_cons_self h hs)
      have hws : ∀ x ∈ hs, 0 ≤ x.weight := fun x hx => hw x (List.mem_cons_of_mem h hx)
      have heaten0 : 0 ≤ min (c.F - e) h.weight :=
        le_min (by linarith [lt_of_not_le h1]) hwh
      have heatenF : e + min (c.F - e) h.weight ≤ c.F := by
        have := min_le_left (c.F - e) h.weight
        linarith
      -- the updated predator after a kill
      have hkill : ∀ s' : RS,
          let eaten := min (c.F - e) h.weight
          let c' := Animal.calculate_fitness φ
            { c with weight := c.weight + c.beta * eaten }
          e ≤ (Carnivore.huntAux φ c' (e + eaten) (dead ++ [h]) s' hs).eaten_amount ∧
          (Carnivore.huntAux φ c' (e + eaten) (dead ++ [h]) s' hs).eaten_amount ≤ c.F ∧
          (Carnivore.huntAux φ c' (e + eaten) (dead ++ [h]) s' hs).carn.weight =
            c.weight + c.beta *
              ((Carnivore.huntAux φ c' (e + eaten) (dead ++ [h]) s' hs).eaten_amount - e) ∧
          (Carnivore.huntAux φ c' (e + eaten) (dead ++ [h]) s' hs).carn.weight ≤
            c.weight + c.beta * c.F := by
        intro s'
        set eaten := min (c.F - e) h.weight with heq
        set c' := Animal.calculate_fitness φ
          { c with weight := c.weight + c.beta * eaten } with hceq
        have hcF : c'.F = c.F := by rw [hceq, calculate_fitness_F]
        have hcb : c'.beta = c.beta := by rw [hceq, calculate_fitness_beta]
        have hcw : c'.weight = c.weight + c.beta * eaten := by
          rw [hceq, calculate_fitness_weight]
        have := ih c' (e + eaten) (dead ++ [h]) s'
          (by rw [hcF]; exact hF) (by rw [hcb]; exact hb)
          (by linarith) (by rw [hcF]; exact heatenF) hws
        obtain ⟨i1, i2, i3, i4, -⟩ := this
        rw [hcF] at i2
        rw [hcb, hcw] at i3
        refine ⟨by linarith, i2, by rw [i3]; ring, ?_⟩
        have hmono : (Carnivore.huntAux φ c' (e + eaten) (dead ++ [h]) s' hs).eaten_amount
            ≤ c.F := i2
        have : (Carnivore.huntAux φ c' (e + eaten) (dead ++ [h]) s' hs).carn.weight =
            c.weight + c.beta *
              ((Carnivore.huntAux φ c' (e + eaten) (dead ++ [h]) s' hs).eaten_amount - e) := by
          rw [i3]; ring
        rw [this]
        have h2 : (Carnivore.huntAux φ c' (e + eaten) (dead ++ [h]) s' hs).eaten_amount - e
            ≤ c.F := by linarith
        nlinarith
      simp only [Carnivore.huntAux]
      rw [if_neg h1]
      by_cases h2 : c.fitness ≤ h.fitness
      · rw [if_pos h2]
        obtain ⟨i1, i2, i3, i4, -⟩ := ih c e dead s hF hb he0 heF hws
        exact ⟨i1, i2, i3, i4, fun hcon => absurd hcon h1⟩
      · rw [if_neg h2]
        by_cases h3 : c.fitness - h.fitness < c.DeltaPhiMax
        · rw [if_pos h3]
          by_cases h4 : (s.next).1 < (c.fitness - h.fitness) / c.DeltaPhiMax
          · rw [if_pos h4]
            obtain ⟨i1, i2, i3, i4⟩ := hkill (s.next).2
            exact ⟨i1, i2, i3, i4, fun hcon => absurd hcon h1⟩
          · rw [if_neg h4]
            obtain ⟨i1, i2, i3, i4, -⟩ := ih c e dead (s.next).2 hF hb he0 heF hws
            exact ⟨i1, i2, i3, i4, fun hcon => absurd hcon h1⟩
        · rw [if_neg h3]
          obtain ⟨i1, i2, i3, i4⟩ := hkill s
          exact ⟨i1, i2, i3, i4, fun hcon => absurd hcon h1⟩

/-- Closed instance of `claim6_hunt_intake_cap` at `huntCarn` hunting
`[preyH]` from an empty stomach. -/
theorem claim6_hunt_intake_cap_witness :
    0 ≤ (Carnivore.huntAux fitLin huntCarn 0 [] rsHunt [preyH]).eaten_amount ∧
    (Carnivore.huntAux fitLin huntCarn 0 [] rsHunt [preyH]).eaten_amount ≤ huntCarn.F ∧
    (Carnivore.huntAux fitLin huntCarn 0 [] rsHunt [preyH]).carn.weight =
      huntCarn.weight + huntCarn.beta *
        ((Carnivore.huntAux fitLin huntCarn 0 [] rsHunt [preyH]).eaten_amount - 0) ∧
    (Carnivore.huntAux fitLin huntCarn 0 [] rsHunt [preyH]).carn.weight ≤
      huntCarn.weight + huntCarn.beta * huntCarn.F := by
  have h6 := claim6_hunt_intake_cap fitLin huntCarn 0 [] rsHunt [preyH]
    (by norm_num [huntCarn, Carnivore.paramBase])
    (by norm_num [huntCarn, Carnivore.paramBase])
    (le_refl 0)
    (by norm_num [huntCarn, Carnivore.paramBase])
    (by intro x hx
        simp only [List.mem_singleton] at hx
        subst hx
        norm_num [preyH, Herbivore.paramBase])
  exact ⟨h6.1, h6.2.1, h6.2.2.1, h6.2.2.2.1⟩

/-- **C2 (divergence).**  `Geography.insert_population` called on a
movable cell with an unrecognised species record (`"Shark"`) matches
neither the herbivore nor the carnivore branch: the record is silently
passed over, no error is surfaced, and the cell is unchanged — even
though the method's own error message ("... or unknown species") and
the spec's `InvalidPlacement` taxonomy promise an error.  On the
impassable Water cell a recognised species does surface the error
(the `AttributeError` from appending to the `None` list), and an
unknown species on Water raises nothing either. -/
theorem claim2_unknown_species_silently_skipped :
    Geography.insert_population fitLin Lowland.init
      [{ species := "Shark", age := 3, weight := 10 }] = (Lowland.init, none) ∧
    (Geography.insert_population fitLin Water.init
      [{ species := "Herbivore", age := 3, weight := 10 }]).2
      = some InsertErr.attributeErr ∧
    (Geography.insert_population fitLin Water.init
      [{ species := "Shark", age := 3, weight := 10 }]).2 = none := by
  refine ⟨?_, ?_, ?_⟩ <;>
    simp [Geography.insert_population, Lowland.init, Water.init]

lemma herbivores_eaten_append (herbs d₁ d₂ : List Animal) :
    herbivores_eaten herbs (d₁ ++ d₂) =
      herbivores_eaten (herbivores_eaten herbs d₁) d₂ := by
  simp [herbivores_eaten, List.foldl_append]

/-- **C1 (amended).**  In the carnivore feeding stage each predator's
kills are removed from the resident prey list *immediately after its
own hunt* (not once hunting for the cell completes): the prey list
handed to the `(j+1)`-st predator is the original list with the kills
of the first `j` predators already removed, and the resident list
after the stage is the original with all kills removed. -/
theorem claim1_immediate_removal_amended (φ : FitnessMap)
    (carns herbs : List Animal) (s : RS) :
    (∀ j pr, (carnLoopTrace φ carns herbs s).get? j = some pr →
      pr.1 = herbivores_eaten herbs
        (((carnLoopTrace φ carns herbs s).take j).map Prod.snd).flatten) ∧
    (carnLoop φ carns herbs s).2.1 =
      herbivores_eaten herbs
        ((carnLoopTrace φ carns herbs s).map Prod.snd).flatten := by
  induction carns generalizing herbs s with
  | nil =>
    constructor
    · intro j pr hpr
      simp [carnLoopTrace] at hpr
    · simp [carnLoop, carnLoopTrace, herbivores_eaten]
  | cons c cs ih =>
    constructor
    · intro j pr hpr
      match j with
      | 0 =>
        simp only [carnLoopTrace, List.get?] at hpr
        cases hpr
        simp [herbivores_eaten]
      | j' + 1 =>
        simp only [carnLoopTrace, List.get?] at hpr
        have h1 := (ih (herbivores_eaten herbs
          (Carnivore.hunt φ c herbs s).dead) (Carnivore.hunt φ c herbs s).rs).1 j' pr hpr
        rw [h1]
        simp only [carnLoopTrace, List.take_succ_cons, List.map_cons, List.flatten_cons]
        rw [herbivores_eaten_append]
    · simp only [carnLoop, carnLoopTrace, List.map_cons, List.flatten_cons]
      rw [herbivores_eaten_append]
      exact (ih (herbivores_eaten herbs
        (Carnivore.hunt φ c herbs s).dead) (Carnivore.hunt φ c herbs s).rs).2

/-- Closed instance of `claim1_immediate_removal_amended`: one
carnivore whose kill attempt fails receives the full prey list, which
is also the resident list after the stage. -/
theorem claim1_immediate_removal_amended_witness :
    ([preyH], ([] : List Animal)).1 = herbivores_eaten [preyH]
      (((carnLoopTrace fitLin [huntCarn] [preyH] rsNoKill).take 0).map Prod.snd).flatten ∧
    (carnLoop fitLin [huntCarn] [preyH] rsNoKill).2.1 =
      herbivores_eaten [preyH]
        ((carnLoopTrace fitLin [huntCarn] [preyH] rsNoKill).map Prod.snd).flatten := by
  have hget : (carnLoopTrace fitLin [huntCarn] [preyH] rsNoKill).get? 0
      = some ([preyH], []) := by
    norm_num [carnLoopTrace, Carnivore.hunt, Carnivore.huntAux, huntCarn, preyH,
      Carnivore.paramBase, Herbivore.paramBase, rsNoKill, RS.next]
  exact ⟨(claim1_immediate_removal_amended fitLin [huntCarn] [preyH] rsNoKill).1
      0 ([preyH], []) hget,
    (claim1_immediate_removal_amended fitLin [huntCarn] [preyH] rsNoKill).2⟩

/-- **C1, counterexample.**  Two carnivores hunt a one-prey cell; the
first kills the prey (fitness gap `0.1`, uniform draw `0`), and the
second is handed the *empty* prey list — the prey killed by the
earlier predator has already been removed, contradicting "the prey
list it hunts still contains every prey already killed by earlier
predators in the same cell and year". -/
theorem claim1_deferred_removal_cex :
    carnLoopTrace fitLin [huntCarn, huntCarn] [preyH] rsHunt
      = [([preyH], [preyH]), ([], [])] ∧
    preyH ∉ ([] : List Animal) := by
  refine ⟨?_, by simp⟩
  norm_num [carnLoopTrace, Carnivore.hunt, Carnivore.huntAux, huntCarn, preyH,
    Carnivore.paramBase, Herbivore.paramBase, rsHunt, RS.next, herbivores_eaten,
    Animal.calculate_fitness, fitLin]

/-- **C5 (amended).**  For a passable cell, the statistics `simulate`
emits are computed at the *entry* of the cell's phase-1 block — before
resource growth, feeding, reproduction and migration — so the emitted
counts, weights, fitness values and ages are the start-of-year
(pre-feeding, pre-reproduction) resident statistics, not the
post-reproduction ones. -/
theorem claim5_stats_at_phase_entry (φ : FitnessMap) (isl : Island) (c : Coord)
    (st : YearStats) (s : RS)
    (hm : (isl c).movable = true) (hlp : (isl c).listsPresent = true) :
    (phase1Cell φ isl c st s).2.1 =
      { herb_pop := st.herb_pop ++ [(isl c).herbivores.length]
        carn_pop := st.carn_pop ++ [(isl c).carnivores.length]
        herb_weights := st.herb_weights ++ (isl c).herbivores.map (fun a => a.weight)
        carn_weights := st.carn_weights ++ (isl c).carnivores.map (fun a => a.weight)
        herb_fitness := st.herb_fitness ++ (isl c).herbivores.map (fun a => a.fitness)
        carn_fitness := st.carn_fitness ++ (isl c).carnivores.map (fun a => a.fitness)
        herb_age := st.herb_age ++ (isl c).herbivores.map (fun a => a.age)
        carn_age := st.carn_age ++ (isl c).carnivores.map (fun a => a.age) } := by
  simp only [phase1Cell]
  rw [if_pos hlp, if_pos hm]

/-- Closed instance of `claim5_stats_at_phase_entry` on the one-cell
island. -/
theorem claim5_stats_at_phase_entry_witness :
    (phase1Cell fitLin islandC5 (1, 1) YearStats.empty rs0).2.1 =
      { herb_pop := [1]
        carn_pop := [0]
        herb_weights := [herbC5.weight]
        carn_weights := []
        herb_fitness := [herbC5.fitness]
        carn_fitness := []
        herb_age := [herbC5.age]
        carn_age := [] } := by
  have h := claim5_stats_at_phase_entry fitLin islandC5 (1, 1) YearStats.empty rs0
    (by norm_num [islandC5, lowCellC5, Lowland.init])
    (by norm_num [islandC5, lowCellC5, Lowland.init])
  rw [h]
  norm_num [islandC5, lowCellC5, Lowland.init, YearStats.empty]

/-- **C5, counterexample.**  On the one-cell island the emitted weight
sample is the pre-feeding weight 20, while the cell's resident weight
after feeding/reproduction (migration being a no-op towards water) is
29 — the statistics are not computed after the feeding and
reproduction stages. -/
theorem claim5_stats_cex :
    (phase1Cell fitLin islandC5 (1, 1) YearStats.empty rs0).2.1.herb_weights
      = [20] ∧
    ((phase1Cell fitLin islandC5 (1, 1) YearStats.empty rs0).1 (1, 1)).herbivores.map
      (fun a => a.weight) = [29] ∧
    (20 : ℚ) ≠ 29 := by
  refine ⟨?_, ?_, by norm_num⟩ <;>
    norm_num [phase1Cell, islandC5, lowCellC5, herbC5, Lowland.init, Water.init,
      YearStats.empty, rs0, Geography.grow_fodder, Geography.sort_herbivores_by_fitness,
      sortByFitnessDesc, insertByFitness, herbivoreFeeding, feedLoop, Herbivore.feed,
      Geography.fodder_eaten, carnivoreFeeding, Geography.random_carnivore_order,
      applyShuffle, RS.nextShuffle, carnLoop, Geography.procreation, procLoopH,
      procLoopC, Herbivore.gives_birth, RS.next, Geography.animal_migration, migStep,
      RS.nextChoice, neighborCoord, Animal.migration_prob, updateIsl,
      Herbivore.init, Herbivore.paramBase, Animal.calculate_fitness, fitLin]

lemma updateIsl_same (isl : Island) (q : Coord) (v : Geography) :
    updateIsl isl q v q = v := by
  simp [updateIsl]

lemma updateIsl_noteq (isl : Island) (q : Coord) (v : Geography) (p : Coord)
    (h : p ≠ q) : updateIsl isl q v p = isl p := by
  simp [updateIsl, h]

lemma sum_map_update {M : Type} [AddCommMonoid M] (f : Geography → M)
    (cs : List Coord) (hnd : cs.Nodup) (isl : Island) (q : Coord) (hq : q ∈ cs)
    (v : Geography) :
    (cs.map fun c => f (updateIsl isl q v c)).sum + f (isl q)
      = (cs.map fun c => f (isl c)).sum + f v := by
  induction cs with
  | nil => cases hq
  | cons c rest ih =>
    rcases List.mem_cons.mp hq with h | h
    · have hrest : c ∉ rest := (List.nodup_cons.mp hnd).1
      subst h
      simp only [List.map_cons, List.sum_cons, updateIsl_same]
      rw [List.map_congr_left (fun x hx => congrArg f
        (updateIsl_noteq isl q v x (fun hxq : x = q => hrest (hxq ▸ hx))))]
      abel
    · have hnd' := (List.nodup_cons.mp hnd).2
      have hcq : c ≠ q := fun hcq => (List.nodup_cons.mp hnd).1 (hcq ▸ h)
      simp only [List.map_cons, List.sum_cons]
      rw [updateIsl_noteq isl q v c hcq, add_assoc, add_assoc, ih hnd' h]

lemma update_movable (isl : Island) (q : Coord) (v : Geography)
    (hv : v.movable = (isl q).movable) (p : Coord) :
    (updateIsl isl q v p).movable = (isl p).movable := by
  by_cases h : p = q
  · subst h
    rw [updateIsl_same, hv]
  · rw [updateIsl_noteq isl q v p h]

/-- One migration step never changes any cell's `movable` flag. -/
lemma migStep_movable (c₀ : Coord) (isl : Island) (a : Animal) (s : RS) (p : Coord) :
    ((migStep c₀ isl a s).1 p).movable = (isl p).movable := by
  simp only [migStep]
  set nc := neighborCoord c₀ (s.nextChoice).1 with hnc
  by_cases h1 : (isl nc).movable = true
  · rw [if_pos h1]
    by_cases h2 : a.migration_prob > (((s.nextChoice).2).next).1
    · rw [if_pos h2]
      by_cases h3 : a ∈ (isl c₀).herbivores
      · rw [if_pos h3]
        refine (update_movable _ c₀ _ ?_ p).trans (update_movable isl nc _ ?_ p) <;> rfl
      · rw [if_neg h3]
        by_cases h4 : a ∈ (isl c₀).carnivores
        · rw [if_pos h4]
          refine (update_movable _ c₀ _ ?_ p).trans (update_movable isl nc _ ?_ p) <;> rfl
        · rw [if_neg h4]
    · rw [if_neg h2]
  · rw [if_neg h1]

lemma sum_map_update_rt (cs : List Coord) (hnd : cs.Nodup) (isl : Island)
    (q : Coord) (hq : q ∈ cs) (v : Geography) :
    (cs.map fun c => residentCount (updateIsl isl q v c) +
        transitCount (updateIsl isl q v c)).sum
        + (residentCount (isl q) + transitCount (isl q))
      = (cs.map fun c => residentCount (isl c) + transitCount (isl c)).sum
        + (residentCount v + transitCount v) :=
  sum_map_update (fun g => residentCount g + transitCount g) cs hnd isl q hq v

/-- One migration step preserves the island-wide count of residents
plus transit animals, provided the traversal list covers every movable
cell. -/
lemma migStep_total (cs : List Coord) (hnd : cs.Nodup) (c₀ : Coord)
    (hc₀ : c₀ ∈ cs) (isl : Island) (a : Animal) (s : RS)
    (hout : ∀ p, p ∉ cs → (isl p).movable = false) :
    (cs.map fun c => residentCount ((migStep c₀ isl a s).1 c) +
        transitCount ((migStep c₀ isl a s).1 c)).sum
      = (cs.map fun c => residentCount (isl c) + transitCount (isl c)).sum := by
  set nc := neighborCoord c₀ (s.nextChoice).1 with hnc
  by_cases h1 : (isl nc).movable = true
  · have hncs : nc ∈ cs := by
      by_contra hmem
      rw [hout nc hmem] at h1
      exact Bool.noConfusion h1
    by_cases h2 : a.migration_prob > (((s.nextChoice).2).next).1
    · by_cases h3 : a ∈ (isl c₀).herbivores
      · set v₁ := { isl nc with
          migrated_herbivores := (isl nc).migrated_herbivores ++ [a] } with hv₁
        set isl₁ := updateIsl isl nc v₁ with hisl₁
        set v₂ := { isl₁ c₀ with herbivores := (isl₁ c₀).herbivores.erase a } with hv₂
        have hherb : (isl₁ c₀).herbivores = (isl c₀).herbivores := by
          by_cases hco : c₀ = nc
          · rw [hisl₁, hco, updateIsl_same, hv₁]
          · rw [hisl₁, updateIsl_noteq isl nc v₁ c₀ hco]
        have hres : (migStep c₀ isl a s).1 = updateIsl isl₁ c₀ v₂ := by
          simp only [migStep]
          rw [← hnc, if_pos h1, if_pos h2, if_pos h3]
        rw [hres]
        have e1 := sum_map_update_rt cs hnd isl₁ c₀ hc₀ v₂
        have e2 := sum_map_update_rt cs hnd isl nc hncs v₁
        rw [← hisl₁] at e2
        have e3 : residentCount v₁ + transitCount v₁
            = residentCount (isl nc) + transitCount (isl nc) + 1 := by
          simp [hv₁, residentCount, transitCount]
          omega
        have e4 : residentCount v₂ + transitCount v₂ + 1
            = residentCount (isl₁ c₀) + transitCount (isl₁ c₀) := by
          have hmem : a ∈ (isl₁ c₀).herbivores := hherb ▸ h3
          have hlen := List.length_erase_of_mem hmem
          have hpos : 0 < (isl₁ c₀).herbivores.length :=
            List.length_pos.mpr (List.ne_nil_of_mem hmem)
          simp only [hv₂, residentCount, transitCount]
          omega
        omega
      · by_cases h4 : a ∈ (isl c₀).carnivores
        · set v₁ := { isl nc with
            migrated_carnivores := (isl nc).migrated_carnivores ++ [a] } with hv₁
          set isl₁ := updateIsl isl nc v₁ with hisl₁
          set v₂ := { isl₁ c₀ with carnivores := (isl₁ c₀).carnivores.erase a } with hv₂
          have hcarn : (isl₁ c₀).carnivores = (isl c₀).carnivores := by
            by_cases hco : c₀ = nc
            · rw [hisl₁, hco, updateIsl_same, hv₁]
            · rw [hisl₁, updateIsl_noteq isl nc v₁ c₀ hco]
          have hres : (migStep c₀ isl a s).1 = updateIsl isl₁ c₀ v₂ := by
            simp only [migStep]
            rw [← hnc, if_pos h1, if_pos h2, if_neg h3, if_pos h4]
          rw [hres]
          have e1 := sum_map_update_rt cs hnd isl₁ c₀ hc₀ v₂
          have e2 := sum_map_update_rt cs hnd isl nc hncs v₁
          rw [← hisl₁] at e2
          have e3 : residentCount v₁ + transitCount v₁
              = residentCount (isl nc) + transitCount (isl nc) + 1 := by
            simp [hv₁, residentCount, transitCount]
            omega
          have e4 : residentCount v₂ + transitCount v₂ + 1
              = residentCount (isl₁ c₀) + transitCount (isl₁ c₀) := by
            have hmem : a ∈ (isl₁ c₀).carnivores := hcarn ▸ h4
            have hlen := List.length_erase_of_mem hmem
            have hpos : 0 < (isl₁ c₀).carnivores.length :=
              List.length_pos.mpr (List.ne_nil_of_mem hmem)
            simp only [hv₂, residentCount, transitCount]
            omega
          omega
        · have hres : (migStep c₀ isl a s).1 = isl := by
            simp only [migStep]
            rw [← hnc, if_pos h1, if_pos h2, if_neg h3, if_neg h4]
          rw [hres]
    · have hres : (migStep c₀ isl a s).1 = isl := by
        simp only [migStep]
        rw [← hnc, if_pos h1, if_neg h2]
      rw [hres]
  · have hres : (migStep c₀ isl a s).1 = isl := by
      simp only [migStep]
      rw [← hnc, if_neg h1]
    rw [hres]

/-- Folding migration steps never changes any cell's `movable` flag. -/
lemma migFold_movable (c₀ : Coord) (snap : List Animal) :
    ∀ (isl : Island) (s : RS) (p : Coord),
      (((snap.foldl (fun q a => migStep c₀ q.1 a q.2) (isl, s)).1) p).movable
        = (isl p).movable := by
  induction snap with
  | nil => intro isl s p; rfl
  | cons a rest ih =>
    intro isl s p
    rw [List.foldl_cons]
    exact (ih (migStep c₀ isl a s).1 (migStep c₀ isl a s).2 p).trans
      (migStep_movable c₀ isl a s p)

/-- Folding migration steps preserves the island-wide count of
residents plus transit animals. -/
lemma migFold_total (cs : List Coord) (hnd : cs.Nodup) (c₀ : Coord)
    (hc₀ : c₀ ∈ cs) (snap : List Animal) :
    ∀ (isl : Island) (s : RS),
      (∀ p, p ∉ cs → (isl p).movable = false) →
      (cs.map fun c =>
          residentCount (((snap.foldl (fun q a => migStep c₀ q.1 a q.2) (isl, s)).1) c) +
          transitCount (((snap.foldl (fun q a => migStep c₀ q.1 a q.2) (isl, s)).1) c)).sum
        = (cs.map fun c => residentCount (isl c) + transitCount (isl c)).sum := by
  induction snap with
  | nil => intro isl s _; rfl
  | cons a rest ih =>
    intro isl s hout
    rw [List.foldl_cons]
    have hout' : ∀ p, p ∉ cs → (((migStep c₀ isl a s).1) p).movable = false := by
      intro p hp
      rw [migStep_movable]
      exact hout p hp
    exact (ih (migStep c₀ isl a s).1 (migStep c₀ isl a s).2 hout').trans
      (migStep_total cs hnd c₀ hc₀ isl a s hout)

/-- `animal_migration` never changes any cell's `movable` flag. -/
lemma animal_migration_movable (isl : Island) (c₀ : Coord) (s : RS) (p : Coord) :
    (((Geography.animal_migration isl c₀ s).1) p).movable = (isl p).movable :=
  migFold_movable c₀ ((isl c₀).herbivores ++ (isl c₀).carnivores) isl s p

/-- `animal_migration` preserves the island-wide count of residents
plus transit animals. -/
lemma animal_migration_total (cs : List Coord) (hnd : cs.Nodup) (c₀ : Coord)
    (hc₀ : c₀ ∈ cs) (isl : Island) (s : RS)
    (hout : ∀ p, p ∉ cs → (isl p).movable = false) :
    (cs.map fun c => residentCount (((Geography.animal_migration isl c₀ s).1) c) +
        transitCount (((Geography.animal_migration isl c₀ s).1) c)).sum
      = (cs.map fun c => residentCount (isl c) + transitCount (isl c)).sum :=
  migFold_total cs hnd c₀ hc₀ ((isl c₀).herbivores ++ (isl c₀).carnivores) isl s hout

/-- The migration pass over a traversal order drawn from the domain
`cs` preserves the island-wide count of residents plus transit
animals. -/
lemma migrationPass_total (cs : List Coord) (hnd : cs.Nodup) (cs₂ : List Coord)
    (hsub : ∀ c ∈ cs₂, c ∈ cs) :
    ∀ (isl : Island) (s : RS),
      (∀ p, p ∉ cs → (isl p).movable = false) →
      (cs.map fun c => residentCount ((migrationPass isl cs₂ s).1 c) +
          transitCount ((migrationPass isl cs₂ s).1 c)).sum
        = (cs.map fun c => residentCount (isl c) + transitCount (isl c)).sum := by
  induction cs₂ with
  | nil => intro isl s _; rfl
  | cons c rest ih =>
    intro isl s hout
    have hrest : ∀ x ∈ rest, x ∈ cs := fun x hx => hsub x (List.mem_cons_of_mem c hx)
    simp only [migrationPass, List.foldl_cons]
    by_cases hm : (isl c).movable = true
    · rw [if_pos hm]
      have hout' : ∀ p, p ∉ cs → (((Geography.animal_migration isl c s).1) p).movable = false := by
        intro p hp
        rw [animal_migration_movable]
        exact hout p hp
      have hstep := animal_migration_total cs hnd c (hsub c (List.mem_cons_self c rest))
        isl s hout
      have htail := ih hrest (Geography.animal_migration isl c s).1
        (Geography.animal_migration isl c s).2 hout'
      simp only [migrationPass] at htail
      exact htail.trans hstep
    · rw [if_neg hm]
      have htail := ih hrest isl s hout
      simp only [migrationPass] at htail
      exact htail

/-- Pointwise description of the merge pass: every traversed movable
cell is merged exactly once, everything else is untouched. -/
lemma mergePass_apply (cs : List Coord) (hnd : cs.Nodup) (isl : Island) (p : Coord) :
    mergePass isl cs p =
      if p ∈ cs ∧ (isl p).movable = true then (isl p).migration_finished
      else isl p := by
  induction cs generalizing isl with
  | nil => simp [mergePass]
  | cons c rest ih =>
    obtain ⟨hc, hnd'⟩ := List.nodup_cons.mp hnd
    simp only [mergePass, List.foldl_cons]
    by_cases hm : (isl c).movable = true
    · rw [if_pos hm]
      have hrec := ih hnd' (updateIsl isl c (isl c).migration_finished)
      simp only [mergePass] at hrec
      rw [hrec]
      by_cases hp : p = c
      · subst hp
        have hnr : p ∉ rest := hc
        rw [updateIsl_same]
        simp [hnr, hm]
      · rw [updateIsl_noteq isl c (isl c).migration_finished p hp]
        by_cases hpr : p ∈ rest
        · simp [hpr, hp]
        · simp [hpr, hp]
    · rw [if_neg hm]
      have hrec := ih hnd' isl
      simp only [mergePass] at hrec
      rw [hrec]
      by_cases hp : p = c
      · subst hp
        have hnr : p ∉ rest := hc
        simp [hnr, hm]
      · by_cases hpr : p ∈ rest
        · simp [hpr, hp]
        · simp [hpr, hp]

lemma residentCount_migration_finished (g : Geography) :
    residentCount g.migration_finished = residentCount g + transitCount g := by
  simp [Geography.migration_finished, residentCount, transitCount]
  omega

lemma transitCount_migration_finished (g : Geography) :
    transitCount g.migration_finished = 0 := by
  simp [Geography.migration_finished, transitCount]

/-- **C8.**  Migration bookkeeping preserves the total population
across the whole grid: (i) the migration pass (each movable cell's
`animal_migration` in traversal order) leaves the sum over all cells of
residents plus transit animals unchanged; (ii) after every cell's
merge the sum of residents equals the pre-merge sum of residents plus
transit animals; and (iii) after merging, every cell's transit lists
are empty. -/
theorem claim8_migration_preserves_population (isl : Island) (cs : List Coord)
    (s : RS) (hnd : cs.Nodup)
    (hout : ∀ p, p ∉ cs → (isl p).movable = false)
    (hwt : ∀ p, (isl p).movable = false → transitCount (isl p) = 0) :
    ((cs.map fun c => residentCount ((migrationPass isl cs s).1 c) +
        transitCount ((migrationPass isl cs s).1 c)).sum
      = (cs.map fun c => residentCount (isl c) + transitCount (isl c)).sum) ∧
    ((cs.map fun c => residentCount (mergePass isl cs c)).sum
      = (cs.map fun c => residentCount (isl c) + transitCount (isl c)).sum) ∧
    (∀ c ∈ cs, transitCount (mergePass isl cs c) = 0) := by
  refine ⟨migrationPass_total cs hnd cs (fun c hc => hc) isl s hout, ?_, ?_⟩
  · rw [List.map_congr_left (fun c hc => ?_)]
    rw [mergePass_apply cs hnd isl c]
    by_cases hm : (isl c).movable = true
    · rw [if_pos ⟨hc, hm⟩, residentCount_migration_finished]
    · rw [if_neg (fun hand => hm hand.2)]
      rw [hwt c (Bool.not_eq_true _ ▸ hm)]
      omega
  · intro c hc
    rw [mergePass_apply cs hnd isl c]
    by_cases hm : (isl c).movable = true
    · rw [if_pos ⟨hc, hm⟩, transitCount_migration_finished]
    · rw [if_neg (fun hand => hm hand.2)]
      exact hwt c (Bool.not_eq_true _ ▸ hm)

/-- Closed instance of `claim8_migration_preserves_population` on the
one-cell island `islandC8` (one resident, one transit herbivore). -/
theorem claim8_migration_preserves_population_witness :
    (([((1 : ℤ), (1 : ℤ))].map fun c =>
        residentCount ((migrationPass islandC8 [(1, 1)] rs0).1 c) +
        transitCount ((migrationPass islandC8 [(1, 1)] rs0).1 c)).sum
      = ([((1 : ℤ), (1 : ℤ))].map fun c =>
          residentCount (islandC8 c) + transitCount (islandC8 c)).sum) ∧
    (([((1 : ℤ), (1 : ℤ))].map fun c =>
        residentCount (mergePass islandC8 [(1, 1)] c)).sum
      = ([((1 : ℤ), (1 : ℤ))].map fun c =>
          residentCount (islandC8 c) + transitCount (islandC8 c)).sum) ∧
    (∀ c ∈ [((1 : ℤ), (1 : ℤ))], transitCount (mergePass islandC8 [(1, 1)] c) = 0) := by
  have h8 := claim8_migration_preserves_population islandC8 [(1, 1)] rs0
    (by simp)
    (by intro p hp
        simp only [List.mem_singleton] at hp
        simp only [islandC8]
        rw [if_neg hp]
        rfl)
    (by intro p hp
        by_cases hq : p = ((1 : ℤ), (1 : ℤ))
        · exfalso
          rw [hq] at hp
          simp only [islandC8, if_pos rfl] at hp
          exact Bool.noConfusion hp
        · simp only [islandC8]
          rw [if_neg hq]
          rfl)
  exact h8

/-- **C3, counterexample.**  The Gaussian birth-weight draw is never
clamped: with a standard-normal draw of `-6` a successful herbivore
birth creates a newborn of weight `8 + 1.5·(-6) = -1 < 0` (the
acceptance check `-1 ≤ 40` passes, and the parent even *gains* weight,
`40 - (-1) = 41`), so "weight ≥ 0 after every phase" fails after the
reproduction phase. -/
theorem claim3_weight_nonneg_cex :
    ((Geography.procreation fitLin c3Cell rsC3).1.herbivores.map fun a => a.weight)
      = [41, 40, -1] ∧ ¬ (0 : ℚ) ≤ (-1 : ℚ) := by
  refine ⟨?_, by norm_num⟩
  norm_num [Geography.procreation, procLoopH, procLoopC, c3Cell, parentH,
    Lowland.init, Herbivore.paramBase, rsC3, RS.next, RS.nextGauss, rgauss,
    Herbivore.gives_birth, Herbivore.init, Animal.calculate_fitness,
    Animal.weight_reduction, fitLin]

lemma insertByFitness_mem (a x : Animal) (l : List Animal)
    (h : x ∈ insertByFitness a l) : x = a ∨ x ∈ l := by
  induction l with
  | nil => simpa [insertByFitness] using h
  | cons b bs ih =>
    simp only [insertByFitness] at h
    by_cases hc : b.fitness ≤ a.fitness
    · rw [if_pos hc] at h
      rcases List.mem_cons.mp h with h1 | h1
      · exact Or.inl h1
      · exact Or.inr h1
    · rw [if_neg hc] at h
      rcases List.mem_cons.mp h with h1 | h1
      · exact Or.inr (h1 ▸ List.mem_cons_self b bs)
      · rcases ih h1 with h2 | h2
        · exact Or.inl h2
        · exact Or.inr (List.mem_cons_of_mem b h2)

lemma sortByFitnessDesc_mem (x : Animal) (l : List Animal)
    (h : x ∈ sortByFitnessDesc l) : x ∈ l := by
  induction l with
  | nil => simpa [sortByFitnessDesc] using h
  | cons a as ih =>
    simp only [sortByFitnessDesc] at h
    rcases insertByFitness_mem a x _ h with h1 | h1
    · exact h1 ▸ List.mem_cons_self a as
    · exact List.mem_cons_of_mem a (ih h1)

lemma applyShuffle_mem (σ : List ℕ) {α : Type} (l : List α) (x : α)
    (h : x ∈ applyShuffle σ l) : x ∈ l := by
  unfold applyShuffle at h
  split at h
  · rcases List.mem_filterMap.mp h with ⟨i, -, hget⟩
    exact List.get?_mem hget
  · exact h

lemma herbivores_eaten_mem (herbs dead : List Animal) (x : Animal)
    (h : x ∈ herbivores_eaten herbs dead) : x ∈ herbs := by
  induction dead generalizing herbs with
  | nil => exact h
  | cons d ds ih =>
    simp only [herbivores_eaten, List.foldl_cons] at h
    exact List.mem_of_mem_erase (ih (herbs.erase d) h)

lemma grow_fodder_herbivores (g : Geography) :
    (g.grow_fodder).herbivores = g.herbivores := by
  cases h : g.terrain <;> simp [Geography.grow_fodder, h]

lemma grow_fodder_carnivores (g : Geography) :
    (g.grow_fodder).carnivores = g.carnivores := by
  cases h : g.terrain <;> simp [Geography.grow_fodder, h]

lemma grow_fodder_migratedH (g : Geography) :
    (g.grow_fodder).migrated_herbivores = g.migrated_herbivores := by
  cases h : g.terrain <;> simp [Geography.grow_fodder, h]

lemma grow_fodder_migratedC (g : Geography) :
    (g.grow_fodder).migrated_carnivores = g.migrated_carnivores := by
  cases h : g.terrain <;> simp [Geography.grow_fodder, h]

lemma grow_fodder_fodder_nonneg (g : Geography) (hfod : 0 ≤ g.fodder)
    (hfmax : 0 ≤ g.f_max) : 0 ≤ (g.grow_fodder).fodder := by
  cases h : g.terrain <;> simp [Geography.grow_fodder, h] <;> assumption

lemma fodder_eaten_nonneg (g : Geography) (need : ℚ) :
    0 ≤ (g.fodder_eaten need).fodder := by
  unfold Geography.fodder_eaten
  by_cases h : g.fodder - need < 0
  · rw [if_pos h]
  · rw [if_neg h]
    simpa using not_lt.mp h

lemma fodder_eaten_eq (g : Geography) (need : ℚ) :
    g.fodder_eaten need = { g with fodder := (g.fodder_eaten need).fodder } := by
  unfold Geography.fodder_eaten
  by_cases h : g.fodder - need < 0
  · rw [if_pos h]
  · rw [if_neg h]

/-- Feeding a herbivore keeps its weight nonnegative when the
available fodder and its parameters are nonnegative. -/
lemma feed_weight_nonneg (φ : FitnessMap) (a : Animal) (avail : ℚ)
    (ha : 0 ≤ a.weight) (hb : 0 ≤ a.beta) (hF : 0 ≤ a.F) (hav : 0 ≤ avail) :
    0 ≤ (Herbivore.feed φ a avail).1.weight := by
  unfold Herbivore.feed
  by_cases h : a.F ≤ avail
  · rw [if_pos h]
    rw [calculate_fitness_weight]
    have : 0 ≤ a.beta * a.F := mul_nonneg hb hF
    simpa using by linarith
  · rw [if_neg h]
    rw [calculate_fitness_weight]
    have : 0 ≤ a.beta * avail := mul_nonneg hb hav
    simpa using by linarith

/-- The feeding loop keeps every herbivore's weight and the fodder
pool nonnegative, and touches nothing but the fodder field of the
cell. -/
lemma feedLoop_invariant (φ : FitnessMap) (herbs : List Animal) :
    ∀ (g : Geography), 0 ≤ g.fodder →
      (∀ a ∈ herbs, 0 ≤ a.weight ∧ 0 ≤ a.beta ∧ 0 ≤ a.F) →
      (∀ a ∈ (feedLoop φ g herbs).1, 0 ≤ a.weight) ∧
      0 ≤ (feedLoop φ g herbs).2.fodder ∧
      (feedLoop φ g herbs).2 = { g with fodder := (feedLoop φ g herbs).2.fodder } := by
  induction herbs with
  | nil =>
    intro g hfod _
    refine ⟨?_, hfod, rfl⟩
    intro a ha
    cases ha
  | cons a as ih =>
    intro g hfod hall
    obtain ⟨ha, hb, hF⟩ := hall a (List.mem_cons_self a as)
    have hfod' : 0 ≤ (g.fodder_eaten (Herbivore.feed φ a g.fodder).2).fodder :=
      fodder_eaten_nonneg g _
    have hrec := ih (g.fodder_eaten (Herbivore.feed φ a g.fodder).2) hfod'
      (fun x hx => hall x (List.mem_cons_of_mem a hx))
    simp only [feedLoop]
    refine ⟨?_, hrec.2.1, ?_⟩
    · intro x hx
      rcases List.mem_cons.mp hx with h1 | h1
      · subst h1
        exact feed_weight_nonneg φ a g.fodder ha hb hF hfod
      · exact hrec.1 x h1
    · rw [hrec.2.2, fodder_eaten_eq]

/-- The fodder-growth + stable sort + herbivore feeding stage keeps
all weights in the cell nonnegative. -/
lemma herbivoreFeeding_weights (φ : FitnessMap) (G : Geography)
    (hres : allWeightsNonneg (cellAnimals G))
    (hpar : allParamsValid (cellAnimals G))
    (hfod : 0 ≤ G.fodder) :
    allWeightsNonneg (cellAnimals (herbivoreFeeding φ G)) := by
  have hherbs : ∀ a ∈ G.herbivores, 0 ≤ a.weight ∧ 0 ≤ a.beta ∧ 0 ≤ a.F := by
    intro a ha
    have hmem : a ∈ cellAnimals G := by
      simp [cellAnimals, ha]
    exact ⟨hres a hmem, (hpar a hmem).1, (hpar a hmem).2.2.2⟩
  have hloop := feedLoop_invariant φ G.herbivores G hfod hherbs
  intro x hx
  simp only [herbivoreFeeding, cellAnimals, List.mem_append] at hx
  rw [hloop.2.2] at hx
  rcases hx with ((h1 | h1) | h1) | h1
  · exact hloop.1 x h1
  · exact hres x (by simp [cellAnimals, h1])
  · exact hres x (by simp [cellAnimals, h1])
  · exact hres x (by simp [cellAnimals, h1])

lemma huntAux_weight_nonneg (φ : FitnessMap) (herbs : List Animal) :
    ∀ (c : Animal) (e : ℚ) (dead : List Animal) (s : RS),
      (∀ h ∈ herbs, 0 ≤ h.weight) → 0 ≤ c.weight → 0 ≤ c.beta →
      0 ≤ (Carnivore.huntAux φ c e dead s herbs).carn.weight := by
  induction herbs with
  | nil =>
    intro c e dead s _ hc _
    exact hc
  | cons h hs ih =>
    intro c e dead s hw hc hb
    simp only [Carnivore.huntAux]
    by_cases h1 : c.F ≤ e
    · rw [if_pos h1]
      exact hc
    · rw [if_neg h1]
      have hws : ∀ x ∈ hs, 0 ≤ x.weight := fun x hx => hw x (List.mem_cons_of_mem h hx)
      by_cases h2 : c.fitness ≤ h.fitness
      · rw [if_pos h2]
        exact ih c e dead s hws hc hb
      · rw [if_neg h2]
        have heaten : 0 ≤ min (c.F - e) h.weight :=
          le_min (by linarith [lt_of_not_le h1]) (hw h (List.mem_cons_self h hs))
        have hcw : 0 ≤ (Animal.calculate_fitness φ
            { c with weight := c.weight + c.beta * min (c.F - e) h.weight }).weight := by
          rw [calculate_fitness_weight]
          exact add_nonneg hc (mul_nonneg hb heaten)
        have hcb : 0 ≤ (Animal.calculate_fitness φ
            { c with weight := c.weight + c.beta * min (c.F - e) h.weight }).beta := by
          rw [calculate_fitness_beta]
          exact hb
        by_cases h3 : c.fitness - h.fitness < c.DeltaPhiMax
        · rw [if_pos h3]
          by_cases h4 : (s.next).1 < (c.fitness - h.fitness) / c.DeltaPhiMax
          · rw [if_pos h4]
            exact ih _ _ _ _ hws hcw hcb
          · rw [if_neg h4]
            exact ih c e dead _ hws hc hb
        · rw [if_neg h3]
          exact ih _ _ _ _ hws hcw hcb

lemma carnLoop_invariant (φ : FitnessMap) (carns : List Animal) :
    ∀ (herbs : List Animal) (s : RS),
      (∀ a ∈ herbs, 0 ≤ a.weight) →
      (∀ a ∈ carns, 0 ≤ a.weight ∧ 0 ≤ a.beta) →
      (∀ a ∈ (carnLoop φ carns herbs s).1, 0 ≤ a.weight) ∧
      (∀ a ∈ (carnLoop φ carns herbs s).2.1, 0 ≤ a.weight) := by
  induction carns with
  | nil =>
    intro herbs s hw _
    refine ⟨?_, fun a ha => hw a ha⟩
    intro a ha
    cases ha
  | cons c cs ih =>
    intro herbs s hw hc
    simp only [carnLoop]
    have hw' : ∀ a ∈ herbivores_eaten herbs (Carnivore.hunt φ c herbs s).dead,
        0 ≤ a.weight :=
      fun a ha => hw a (herbivores_eaten_mem _ _ a ha)
    have hrec := ih (herbivores_eaten herbs (Carnivore.hunt φ c herbs s).dead)
      (Carnivore.hunt φ c herbs s).rs hw'
      (fun a ha => hc a (List.mem_cons_of_mem c ha))
    refine ⟨?_, hrec.2⟩
    intro a ha
    rcases List.mem_cons.mp ha with h1 | h1
    · subst h1
      exact huntAux_weight_nonneg φ herbs c 0 [] s hw
        (hc c (List.mem_cons_self c cs)).1 (hc c (List.mem_cons_self c cs)).2
    · exact hrec.1 a h1

/-- The carnivore feeding stage (shuffle + hunting loop + prey
removal) keeps all weights in the cell nonnegative. -/
lemma carnivoreFeeding_weights (φ : FitnessMap) (g : Geography) (s : RS)
    (hres : allWeightsNonneg (cellAnimals g))
    (hpar : allParamsValid (cellAnimals g)) :
    allWeightsNonneg (cellAnimals (carnivoreFeeding φ g s).1) := by
  have hherb : ∀ a ∈ g.herbivores, 0 ≤ a.weight := fun a ha =>
    hres a (by simp [cellAnimals, ha])
  have hcarn : ∀ a ∈ applyShuffle ((s.nextShuffle).1) g.carnivores,
      0 ≤ a.weight ∧ 0 ≤ a.beta := by
    intro a ha
    have hmem : a ∈ cellAnimals g := by
      simp [cellAnimals, applyShuffle_mem _ _ a ha]
    exact ⟨hres a hmem, (hpar a hmem).1⟩
  have hloop := carnLoop_invariant φ (applyShuffle ((s.nextShuffle).1) g.carnivores)
    g.herbivores (s.nextShuffle).2 hherb hcarn
  intro x hx
  simp only [carnivoreFeeding, Geography.random_carnivore_order, cellAnimals,
    List.mem_append] at hx
  rcases hx with ((h1 | h1) | h1) | h1
  · exact hloop.2 x h1
  · exact hloop.1 x h1
  · exact hres x (by simp [cellAnimals, h1])
  · exact hres x (by simp [cellAnimals, h1])

lemma update_age_weight_nonneg (φ : FitnessMap) (a : Animal)
    (hw : 0 ≤ a.weight) (he0 : 0 ≤ a.eta) (he1 : a.eta ≤ 1) :
    0 ≤ (Animal.update_age φ a).weight := by
  unfold Animal.update_age
  rw [calculate_fitness_weight]
  show 0 ≤ a.weight - a.weight * a.eta
  nlinarith

/-- The aging stage keeps all weights in the cell nonnegative. -/
lemma animal_aging_weights (φ : FitnessMap) (g : Geography)
    (hres : allWeightsNonneg (cellAnimals g))
    (hpar : allParamsValid (cellAnimals g)) :
    allWeightsNonneg (cellAnimals (g.animal_aging φ)) := by
  intro x hx
  simp only [Geography.animal_aging, cellAnimals, List.mem_append, List.mem_map] at hx
  rcases hx with ((⟨y, hy, rfl⟩ | ⟨y, hy, rfl⟩) | h1) | h1
  · have hmem : y ∈ cellAnimals g := by simp [cellAnimals, hy]
    exact update_age_weight_nonneg φ y (hres y hmem) (hpar y hmem).2.1 (hpar y hmem).2.2.1
  · have hmem : y ∈ cellAnimals g := by simp [cellAnimals, hy]
    exact update_age_weight_nonneg φ y (hres y hmem) (hpar y hmem).2.1 (hpar y hmem).2.2.1
  · exact hres x (by simp [cellAnimals, h1])
  · exact hres x (by simp [cellAnimals, h1])

lemma removeDead_mem (dead : List Animal) :
    ∀ (g : Geography) (x : Animal),
      x ∈ cellAnimals (removeDead g dead) → x ∈ cellAnimals g := by
  induction dead with
  | nil => intro g x h; exact h
  | cons d ds ih =>
    intro g x h
    simp only [removeDead, List.foldl_cons] at h
    have hstep : ∀ y, y ∈ cellAnimals
        (if d ∈ g.herbivores then { g with herbivores := g.herbivores.erase d }
         else if d ∈ g.carnivores then { g with carnivores := g.carnivores.erase d }
         else g) → y ∈ cellAnimals g := by
      intro y hy
      by_cases h1 : d ∈ g.herbivores
      · rw [if_pos h1] at hy
        simp only [cellAnimals, List.mem_append] at hy ⊢
        rcases hy with ((h2 | h2) | h2) | h2
        · exact Or.inl (Or.inl (Or.inl (List.mem_of_mem_erase h2)))
        · exact Or.inl (Or.inl (Or.inr h2))
        · exact Or.inl (Or.inr h2)
        · exact Or.inr h2
      · rw [if_neg h1] at hy
        by_cases h2 : d ∈ g.carnivores
        · rw [if_pos h2] at hy
          simp only [cellAnimals, List.mem_append] at hy ⊢
          rcases hy with ((h3 | h3) | h3) | h3
          · exact Or.inl (Or.inl (Or.inl h3))
          · exact Or.inl (Or.inl (Or.inr (List.mem_of_mem_erase h3)))
          · exact Or.inl (Or.inr h3)
          · exact Or.inr h3
        · rw [if_neg h2] at hy
          exact hy
    exact hstep x (ih _ x h)

/-- The death stage keeps all weights in the cell nonnegative. -/
lemma animal_death_weights (g : Geography) (s : RS)
    (hres : allWeightsNonneg (cellAnimals g)) :
    allWeightsNonneg (cellAnimals (g.animal_death s).1) := by
  intro x hx
  exact hres x (removeDead_mem _ g x hx)

/-- The merge stage keeps all weights in the cell nonnegative. -/
lemma migration_finished_weights (g : Geography)
    (hres : allWeightsNonneg (cellAnimals g)) :
    allWeightsNonneg (cellAnimals g.migration_finished) := by
  intro x hx
  simp only [Geography.migration_finished, cellAnimals, List.mem_append,
    List.not_mem_nil, or_false] at hx
  refine hres x ?_
  simp only [cellAnimals, List.mem_append]
  tauto

lemma next_gauss_eq (s : RS) : ((s.next).2).gauss = s.gauss := by
  obtain ⟨u, gs, ch, sh⟩ := s
  cases u <;> rfl

lemma nextGauss_mem (s : RS) : (s.nextGauss).1 ∈ s.gauss ∨ (s.nextGauss).1 = 0 := by
  obtain ⟨u, gs, ch, sh⟩ := s
  cases gs
  · exact Or.inr rfl
  · exact Or.inl (List.mem_cons_self _ _)

lemma nextGauss_tail_subset (s : RS) :
    ∀ x ∈ ((s.nextGauss).2).gauss, x ∈ s.gauss := by
  obtain ⟨u, gs, ch, sh⟩ := s
  cases gs
  · intro x hx
    exact hx
  · intro x hx
    exact List.mem_cons_of_mem _ hx

/-- A herbivore reproduction attempt only consumes gauss draws: the
remaining gauss tape is drawn from the original one. -/
lemma gives_birth_H_gauss (φ : FitnessMap) (a : Animal) (N : ℕ) (s : RS) :
    ∀ x ∈ (Herbivore.gives_birth φ a N s).rs.gauss, x ∈ s.gauss := by
  by_cases hc : min 1 (a.gamma * a.fitness * ((N : ℚ) - 1)) > (s.next).1 ∧
      a.zeta * (a.w_birth + a.sigma_birth) ≤ a.weight
  · by_cases hb : (Herbivore.init φ 0 none (s.next).2).1.weight ≤ a.weight
    · simp only [Herbivore.gives_birth]
      rw [if_pos hc, if_pos hb]
      intro x hx
      exact next_gauss_eq s ▸ nextGauss_tail_subset (s.next).2 x hx
    · simp only [Herbivore.gives_birth]
      rw [if_pos hc, if_neg hb]
      intro x hx
      exact next_gauss_eq s ▸ nextGauss_tail_subset (s.next).2 x hx
  · simp only [Herbivore.gives_birth]
    rw [if_neg hc]
    intro x hx
    exact next_gauss_eq s ▸ hx

/-- A carnivore reproduction attempt only consumes gauss draws. -/
lemma gives_birth_C_gauss (φ : FitnessMap) (a : Animal) (N : ℕ) (s : RS) :
    ∀ x ∈ (Carnivore.gives_birth φ a N s).rs.gauss, x ∈ s.gauss := by
  by_cases hc : min 1 (a.gamma * a.fitness * ((N : ℚ) - 1)) > (s.next).1 ∧
      a.zeta * (a.w_birth + a.sigma_birth) ≤ a.weight
  · by_cases hb : (Carnivore.init φ 0 none (s.next).2).1.weight ≤ a.weight
    · simp only [Carnivore.gives_birth]
      rw [if_pos hc, if_pos hb]
      intro x hx
      exact next_gauss_eq s ▸ nextGauss_tail_subset (s.next).2 x hx
    · simp only [Carnivore.gives_birth]
      rw [if_pos hc, if_neg hb]
      intro x hx
      exact next_gauss_eq s ▸ nextGauss_tail_subset (s.next).2 x hx
  · simp only [Carnivore.gives_birth]
    rw [if_neg hc]
    intro x hx
    exact next_gauss_eq s ▸ hx

/-- A herbivore newborn's weight is the drawn birth weight
`8 + 1.5·g`; it is nonnegative whenever every tape value satisfies
that bound (the default tape value `0` giving the mean weight 8). -/
lemma gives_birth_H_baby_weight (φ : FitnessMap) (a : Animal) (N : ℕ) (s : RS)
    (b : Animal) (h : (Herbivore.gives_birth φ a N s).baby = some b)
    (hg : ∀ x ∈ s.gauss, 0 ≤ 8 + 1.5 * x) :
    0 ≤ b.weight := by
  obtain ⟨hb, -, -⟩ := gives_birth_some_eq_H φ a N s b h
  subst hb
  have hw : (Herbivore.init φ 0 none (s.next).2).1.weight
      = 8 + 1.5 * (((s.next).2).nextGauss).1 := by
    simp only [Herbivore.init, rgauss]
    rw [calculate_fitness_weight]
    norm_num [Herbivore.paramBase]
  rw [hw]
  rcases nextGauss_mem (s.next).2 with hmem | hzero
  · exact hg _ (next_gauss_eq s ▸ hmem)
  · rw [hzero]
    norm_num

/-- A carnivore newborn's weight is the drawn birth weight `6 + g`. -/
lemma gives_birth_C_baby_weight (φ : FitnessMap) (a : Animal) (N : ℕ) (s : RS)
    (b : Animal) (h : (Carnivore.gives_birth φ a N s).baby = some b)
    (hg : ∀ x ∈ s.gauss, 0 ≤ 6 + x) :
    0 ≤ b.weight := by
  obtain ⟨hb, -, -⟩ := gives_birth_some_eq_C φ a N s b h
  subst hb
  have hw : (Carnivore.init φ 0 none (s.next).2).1.weight
      = 6 + (((s.next).2).nextGauss).1 := by
    simp only [Carnivore.init, rgauss]
    rw [calculate_fitness_weight]
    norm_num [Carnivore.paramBase]
  rw [hw]
  rcases nextGauss_mem (s.next).2 with hmem | hzero
  · exact hg _ (next_gauss_eq s ▸ hmem)
  · rw [hzero]
    norm_num

lemma procLoopH_invariant (φ : FitnessMap) (N : ℕ) (herbs : List Animal) :
    ∀ (s : RS),
      (∀ a ∈ herbs, 0 ≤ a.weight) →
      (∀ x ∈ s.gauss, 0 ≤ 8 + 1.5 * x) →
      (∀ a ∈ (procLoopH φ N herbs s).1, 0 ≤ a.weight) ∧
      (∀ a ∈ (procLoopH φ N herbs s).2.1, 0 ≤ a.weight) ∧
      (∀ x ∈ (procLoopH φ N herbs s).2.2.gauss, x ∈ s.gauss) := by
  induction herbs with
  | nil =>
    intro s _ _
    refine ⟨?_, ?_, fun x hx => hx⟩ <;> (intro a ha; cases ha)
  | cons a as ih =>
    intro s hw hg
    simp only [procLoopH]
    by_cases hage : a.age ≠ 0
    · rw [if_pos hage]
      have hgsub := gives_birth_H_gauss φ a N s
      have hg' : ∀ x ∈ (Herbivore.gives_birth φ a N s).rs.gauss, 0 ≤ 8 + 1.5 * x :=
        fun x hx => hg x (hgsub x hx)
      have hrec := ih (Herbivore.gives_birth φ a N s).rs
        (fun x hx => hw x (List.mem_cons_of_mem a hx)) hg'
      refine ⟨?_, ?_, fun x hx => hgsub x (hrec.2.2 x hx)⟩
      · intro x hx
        rcases List.mem_cons.mp hx with h1 | h1
        · subst h1
          rcases hbaby : (Herbivore.gives_birth φ a N s).baby with _ | b
          · rw [gives_birth_none_H φ a N s hbaby]
            exact hw a (List.mem_cons_self a as)
          · obtain ⟨-, hble, hpar⟩ := gives_birth_some_eq_H φ a N s b hbaby
            rw [hpar, weight_reduction_weight]
            have := hw a (List.mem_cons_self a as)
            linarith
        · exact hrec.1 x h1
      · intro x hx
        rcases List.mem_append.mp hx with h1 | h1
        · rcases hbaby : (Herbivore.gives_birth φ a N s).baby with _ | b
          · rw [hbaby] at h1
            cases h1
          · rw [hbaby] at h1
            simp only [Option.toList_some, List.mem_singleton] at h1
            rw [h1]
            exact gives_birth_H_baby_weight φ a N s b hbaby hg
        · exact hrec.2.1 x h1
    · rw [if_neg hage]
      have hrec := ih s (fun x hx => hw x (List.mem_cons_of_mem a hx)) hg
      refine ⟨?_, hrec.2.1, hrec.2.2⟩
      intro x hx
      rcases List.mem_cons.mp hx with h1 | h1
      · rw [h1]
        exact hw a (List.mem_cons_self a as)
      · exact hrec.1 x h1

lemma procLoopC_invariant (φ : FitnessMap) (N : ℕ) (carns : List Animal) :
    ∀ (s : RS),
      (∀ a ∈ carns, 0 ≤ a.weight) →
      (∀ x ∈ s.gauss, 0 ≤ 6 + x) →
      (∀ a ∈ (procLoopC φ N carns s).1, 0 ≤ a.weight) ∧
      (∀ a ∈ (procLoopC φ N carns s).2.1, 0 ≤ a.weight) ∧
      (∀ x ∈ (procLoopC φ N carns s).2.2.gauss, x ∈ s.gauss) := by
  induction carns with
  | nil =>
    intro s _ _
    refine ⟨?_, ?_, fun x hx => hx⟩ <;> (intro a ha; cases ha)
  | cons a as ih =>
    intro s hw hg
    simp only [procLoopC]
    by_cases hage : a.age ≠ 0
    · rw [if_pos hage]
      have hgsub := gives_birth_C_gauss φ a N s
      have hg' : ∀ x ∈ (Carnivore.gives_birth φ a N s).rs.gauss, 0 ≤ 6 + x :=
        fun x hx => hg x (hgsub x hx)
      have hrec := ih (Carnivore.gives_birth φ a N s).rs
        (fun x hx => hw x (List.mem_cons_of_mem a hx)) hg'
      refine ⟨?_, ?_, fun x hx => hgsub x (hrec.2.2 x hx)⟩
      · intro x hx
        rcases List.mem_cons.mp hx with h1 | h1
        · subst h1
          rcases hbaby : (Carnivore.gives_birth φ a N s).baby with _ | b
          · rw [gives_birth_none_C φ a N s hbaby]
            exact hw a (List.mem_cons_self a as)
          · obtain ⟨-, hble, hpar⟩ := gives_birth_some_eq_C φ a N s b hbaby
            rw [hpar, weight_reduction_weight]
            have := hw a (List.mem_cons_self a as)
            linarith
        · exact hrec.1 x h1
      · intro x hx
        rcases List.mem_append.mp hx with h1 | h1
        · rcases hbaby : (Carnivore.gives_birth φ a N s).baby with _ | b
          · rw [hbaby] at h1
            cases h1
          · rw [hbaby] at h1
            simp only [Option.toList_some, List.mem_singleton] at h1
            rw [h1]
            exact gives_birth_C_baby_weight φ a N s b hbaby hg
        · exact hrec.2.1 x h1
    · rw [if_neg hage]
      have hrec := ih s (fun x hx => hw x (List.mem_cons_of_mem a hx)) hg
      refine ⟨?_, hrec.2.1, hrec.2.2⟩
      intro x hx
      rcases List.mem_cons.mp hx with h1 | h1
      · rw [h1]
        exact hw a (List.mem_cons_self a as)
      · exact hrec.1 x h1

/-- The reproduction stage keeps all weights in the cell nonnegative,
provided every drawn birth weight is nonnegative. -/
lemma procreation_weights (φ : FitnessMap) (g : Geography) (s : RS)
    (hres : allWeightsNonneg (cellAnimals g))
    (hg : ∀ x ∈ s.gauss, 0 ≤ 8 + 1.5 * x ∧ 0 ≤ 6 + x) :
    allWeightsNonneg (cellAnimals (Geography.procreation φ g s).1) := by
  have hherb : ∀ a ∈ g.herbivores, 0 ≤ a.weight := fun a ha =>
    hres a (by simp [cellAnimals, ha])
  have hcarn : ∀ a ∈ g.carnivores, 0 ≤ a.weight := fun a ha =>
    hres a (by simp [cellAnimals, ha])
  have hH := procLoopH_invariant φ ((g.herbivores.filter fun a => a.age ≠ 0).length)
    g.herbivores s hherb (fun x hx => (hg x hx).1)
  have hC := procLoopC_invariant φ ((g.carnivores.filter fun a => a.age ≠ 0).length)
    g.carnivores
    ((procLoopH φ ((g.herbivores.filter fun a => a.age ≠ 0).length) g.herbivores s).2.2)
    hcarn (fun x hx => (hg x (hH.2.2 x hx)).2)
  intro x hx
  simp only [Geography.procreation, cellAnimals, List.mem_append] at hx
  rcases hx with ((h1 | h1) | h1) | h1
  · rcases h1 with h1 | h1
    · exact hH.1 x h1
    · exact hH.2.1 x h1
  · rcases h1 with h1 | h1
    · exact hC.1 x h1
    · exact hC.2.1 x h1
  · exact hres x (by simp [cellAnimals, h1])
  · exact hres x (by simp [cellAnimals, h1])

/-- One migration step keeps all weights on the island nonnegative
(the moved animal is only relocated between lists). -/
lemma migStep_weights (c₀ : Coord) (isl : Island) (a : Animal) (s : RS)
    (hisl : ∀ p, allWeightsNonneg (cellAnimals (isl p)))
    (ha : 0 ≤ a.weight) :
    ∀ p, allWeightsNonneg (cellAnimals ((migStep c₀ isl a s).1 p)) := by
  set nc := neighborCoord c₀ (s.nextChoice).1 with hnc
  by_cases h1 : (isl nc).movable = true
  · by_cases h2 : a.migration_prob > (((s.nextChoice).2).next).1
    · by_cases h3 : a ∈ (isl c₀).herbivores
      · set v₁ := { isl nc with
          migrated_herbivores := (isl nc).migrated_herbivores ++ [a] } with hv₁
        set isl₁ := updateIsl isl nc v₁ with hisl₁
        set v₂ := { isl₁ c₀ with herbivores := (isl₁ c₀).herbivores.erase a } with hv₂
        have hres : (migStep c₀ isl a s).1 = updateIsl isl₁ c₀ v₂ := by
          simp only [migStep]
          rw [← hnc, if_pos h1, if_pos h2, if_pos h3]
        rw [hres]
        have hisl₁w : ∀ p, allWeightsNonneg (cellAnimals (isl₁ p)) := by
          intro p
          by_cases hp : p = nc
          · rw [hisl₁, hp, updateIsl_same]
            intro x hx
            have hx' : x ∈ cellAnimals (isl nc) ∨ x = a := by
              simp only [hv₁, cellAnimals, List.mem_append, List.mem_singleton] at hx
              simp only [cellAnimals, List.mem_append]
              tauto
            rcases hx' with hx' | hx'
            · exact hisl nc x hx'
            · rw [hx']
              exact ha
          · rw [hisl₁, updateIsl_noteq isl nc v₁ p hp]
            exact hisl p
        intro p
        by_cases hp : p = c₀
        · rw [hp, updateIsl_same]
          intro x hx
          have hx' : x ∈ cellAnimals (isl₁ c₀) := by
            simp only [hv₂, cellAnimals, List.mem_append] at hx
            simp only [cellAnimals, List.mem_append]
            rcases hx with ((h | h) | h) | h
            · exact Or.inl (Or.inl (Or.inl (List.mem_of_mem_erase h)))
            · exact Or.inl (Or.inl (Or.inr h))
            · exact Or.inl (Or.inr h)
            · exact Or.inr h
          exact hisl₁w c₀ x hx'
        · rw [updateIsl_noteq isl₁ c₀ v₂ p hp]
          exact hisl₁w p
      · by_cases h4 : a ∈ (isl c₀).carnivores
        · set v₁ := { isl nc with
            migrated_carnivores := (isl nc).migrated_carnivores ++ [a] } with hv₁
          set isl₁ := updateIsl isl nc v₁ with hisl₁
          set v₂ := { isl₁ c₀ with carnivores := (isl₁ c₀).carnivores.erase a } with hv₂
          have hres : (migStep c₀ isl a s).1 = updateIsl isl₁ c₀ v₂ := by
            simp only [migStep]
            rw [← hnc, if_pos h1, if_pos h2, if_neg h3, if_pos h4]
          rw [hres]
          have hisl₁w : ∀ p, allWeightsNonneg (cellAnimals (isl₁ p)) := by
            intro p
            by_cases hp : p = nc
            · rw [hisl₁, hp, updateIsl_same]
              intro x hx
              have hx' : x ∈ cellAnimals (isl nc) ∨ x = a := by
                simp only [hv₁, cellAnimals, List.mem_append, List.mem_singleton] at hx
                simp only [cellAnimals, List.mem_append]
                tauto
              rcases hx' with hx' | hx'
              · exact hisl nc x hx'
              · rw [hx']
                exact ha
            · rw [hisl₁, updateIsl_noteq isl nc v₁ p hp]
              exact hisl p
          intro p
          by_cases hp : p = c₀
          · rw [hp, updateIsl_same]
            intro x hx
            have hx' : x ∈ cellAnimals (isl₁ c₀) := by
              simp only [hv₂, cellAnimals, List.mem_append] at hx
              simp only [cellAnimals, List.mem_append]
              rcases hx with ((h | h) | h) | h
              · exact Or.inl (Or.inl (Or.inl h))
              · exact Or.inl (Or.inl (Or.inr (List.mem_of_mem_erase h)))
              · exact Or.inl (Or.inr h)
              · exact Or.inr h
            exact hisl₁w c₀ x hx'
          · rw [updateIsl_noteq isl₁ c₀ v₂ p hp]
            exact hisl₁w p
        · have hres : (migStep c₀ isl a s).1 = isl := by
            simp only [migStep]
            rw [← hnc, if_pos h1, if_pos h2, if_neg h3, if_neg h4]
          rw [hres]
          exact hisl
    · have hres : (migStep c₀ isl a s).1 = isl := by
        simp only [migStep]
        rw [← hnc, if_pos h1, if_neg h2]
      rw [hres]
      exact hisl
  · have hres : (migStep c₀ isl a s).1 = isl := by
      simp only [migStep]
      rw [← hnc, if_neg h1]
    rw [hres]
    exact hisl

lemma migFold_weights (c₀ : Coord) (snap : List Animal) :
    ∀ (isl : Island) (s : RS),
      (∀ p, allWeightsNonneg (cellAnimals (isl p))) →
      (∀ a ∈ snap, 0 ≤ a.weight) →
      ∀ p, allWeightsNonneg (cellAnimals
        (((snap.foldl (fun q a => migStep c₀ q.1 a q.2) (isl, s)).1) p)) := by
  induction snap with
  | nil =>
    intro isl s hisl _ p
    exact hisl p
  | cons a rest ih =>
    intro isl s hisl hsnap
    intro p
    rw [List.foldl_cons]
    exact ih (migStep c₀ isl a s).1 (migStep c₀ isl a s).2
      (migStep_weights c₀ isl a s hisl (hsnap a (List.mem_cons_self a rest)))
      (fun x hx => hsnap x (List.mem_cons_of_mem a hx)) p

/-- The migration stage keeps all weights on the island nonnegative. -/
lemma animal_migration_weights (isl : Island) (c₀ : Coord) (s : RS)
    (hisl : ∀ p, allWeightsNonneg (cellAnimals (isl p))) :
    ∀ p, allWeightsNonneg (cellAnimals ((Geography.animal_migration isl c₀ s).1 p)) := by
  have hsnap : ∀ a ∈ (isl c₀).herbivores ++ (isl c₀).carnivores, 0 ≤ a.weight := by
    intro a ha
    rcases List.mem_append.mp ha with h | h
    · exact hisl c₀ a (by simp [cellAnimals, h])
    · exact hisl c₀ a (by simp [cellAnimals, h])
  exact migFold_weights c₀ _ isl s hisl hsnap

/-- **C3 (amended).**  Every phase of the yearly cycle — fodder
regrowth with stable sort and herbivore feeding, carnivore hunting,
reproduction, migration, merging, aging and death — keeps every
animal's weight on the island nonnegative, *provided* every birth
weight drawn from the species normal distributions is nonnegative
(`0 ≤ 8 + 1.5·g` for herbivore draws and `0 ≤ 6 + g` for carnivore
draws; the source never clamps the Gaussian draw, see the
counterexample) and the animals' parameter fields satisfy `0 ≤ β`,
`0 ≤ η ≤ 1`, `0 ≤ F`, as the default parameters of both species do. -/
theorem claim3_weight_nonneg_amended (φ : FitnessMap) (g : Geography)
    (isl : Island) (c₀ : Coord) (s : RS)
    (hres : allWeightsNonneg (cellAnimals g))
    (hpar : allParamsValid (cellAnimals g))
    (hfod : 0 ≤ g.fodder) (hfmax : 0 ≤ g.f_max)
    (hg : ∀ x ∈ s.gauss, 0 ≤ 8 + 1.5 * x ∧ 0 ≤ 6 + x)
    (hisl : ∀ p, allWeightsNonneg (cellAnimals (isl p))) :
    allWeightsNonneg (cellAnimals
      (herbivoreFeeding φ g.grow_fodder.sort_herbivores_by_fitness)) ∧
    allWeightsNonneg (cellAnimals (carnivoreFeeding φ g s).1) ∧
    allWeightsNonneg (cellAnimals (Geography.procreation φ g s).1) ∧
    (∀ p, allWeightsNonneg (cellAnimals ((Geography.animal_migration isl c₀ s).1 p))) ∧
    allWeightsNonneg (cellAnimals g.migration_finished) ∧
    allWeightsNonneg (cellAnimals (g.animal_aging φ)) ∧
    allWeightsNonneg (cellAnimals (g.animal_death s).1) := by
  have hmemGS : ∀ x, x ∈ cellAnimals (g.grow_fodder.sort_herbivores_by_fitness) →
      x ∈ cellAnimals g := by
    intro x hx
    simp only [Geography.sort_herbivores_by_fitness, cellAnimals, List.mem_append,
      grow_fodder_carnivores, grow_fodder_migratedH, grow_fodder_migratedC] at hx
    rcases hx with ((hx | hx) | hx) | hx
    · have := sortByFitnessDesc_mem x _ hx
      rw [grow_fodder_herbivores] at this
      simp [cellAnimals, this]
    · simp [cellAnimals, hx]
    · simp [cellAnimals, hx]
    · simp [cellAnimals, hx]
  refine ⟨?_, carnivoreFeeding_weights φ g s hres hpar,
    procreation_weights φ g s hres hg,
    animal_migration_weights isl c₀ s hisl,
    migration_finished_weights g hres,
    animal_aging_weights φ g hres hpar,
    animal_death_weights g s hres⟩
  refine herbivoreFeeding_weights φ _ (fun x hx => hres x (hmemGS x hx))
    (fun x hx => hpar x (hmemGS x hx)) ?_
  show 0 ≤ (g.grow_fodder).fodder
  exact grow_fodder_fodder_nonneg g hfod hfmax

/-- Closed instance of `claim3_weight_nonneg_amended` on the two-parent
lowland cell and the one-cell island, with empty random tapes. -/
theorem claim3_weight_nonneg_amended_witness :
    allWeightsNonneg (cellAnimals
      (herbivoreFeeding fitLin c3Cell.grow_fodder.sort_herbivores_by_fitness)) ∧
    allWeightsNonneg (cellAnimals (carnivoreFeeding fitLin c3Cell rs0).1) ∧
    allWeightsNonneg (cellAnimals (Geography.procreation fitLin c3Cell rs0).1) ∧
    (∀ p, allWeightsNonneg (cellAnimals
      ((Geography.animal_migration islandC8 (1, 1) rs0).1 p))) ∧
    allWeightsNonneg (cellAnimals c3Cell.migration_finished) ∧
    allWeightsNonneg (cellAnimals (c3Cell.animal_aging fitLin)) ∧
    allWeightsNonneg (cellAnimals (c3Cell.animal_death rs0).1) := by
  have hcell : ∀ x ∈ cellAnimals c3Cell, x = parentH := by
    intro x hx
    simp only [c3Cell, cellAnimals, Lowland.init, List.mem_append] at hx
    simp only [List.mem_cons, List.not_mem_nil, or_false] at hx
    tauto
  refine claim3_weight_nonneg_amended fitLin c3Cell islandC8 (1, 1) rs0 ?_ ?_ ?_ ?_ ?_ ?_
  · intro x hx
    rw [hcell x hx]
    norm_num [parentH, Herbivore.paramBase]
  · intro x hx
    rw [hcell x hx]
    norm_num [parentH, Herbivore.paramBase]
  · norm_num [c3Cell, Lowland.init]
  · norm_num [c3Cell, Lowland.init]
  · intro x hx
    exact absurd hx (List.not_mem_nil x)
  · intro p
    by_cases hp : p = ((1 : ℤ), (1 : ℤ))
    · rw [hp]
      intro x hx
      have hx' : x = herbC5 ∨ x = preyH := by
        simp only [islandC8, if_pos rfl, cellAnimals, Lowland.init] at hx
        simp at hx
        tauto
      rcases hx' with hx' | hx'
      · rw [hx']
        norm_num [herbC5, Herbivore.init, Animal.calculate_fitness,
          Herbivore.paramBase, fitLin]
      · rw [hx']
        norm_num [preyH, Herbivore.paramBase]
    · intro x hx
      simp only [islandC8] at hx
      rw [if_neg hp] at hx
      simp [cellAnimals, Water.init] at hx

end BioSim

